import Mathlib

/-!
Verification of the day12 2-D packing solver (`src/day12/src/{lib.rs,main.rs,parse.rs}`
together with `src/common/src/grid.rs`) against its specification.

Modelling conventions:
* `Vec<Vec<T>>` is a `List (List α)`; `usize` values are `Nat`.
* Rust `usize` arithmetic is modelled with overflow checks: an underflowing
  subtraction (a program error in Rust, a panic under the default debug
  profile) is a `Fault`, not a wrapped value.
* A Rust panic (`expect`, out-of-range `Vec` indexing, arithmetic overflow)
  and an `Err` propagated by `?` are both modelled as `Except.error` carrying
  a `Fault` that records which abort happened.
* The `HashSet` of deduplicated orientations iterates in an unspecified
  order; the solver is therefore modelled as `solve_with r`, parameterised by
  a reordering `r` applied to the deduplicated orientation list.  Any actual
  run of the program corresponds to some `r` with `∀ l, r l ~ l`.
-/

namespace Day12

/-- Position in a two-dimensional grid (`XY` in src/common/src/grid.rs). -/
structure XY where
  x : Nat
  y : Nat
deriving DecidableEq

/-- `XY::add` (src/common/src/grid.rs, lines 36-41): componentwise addition. -/
def XY.add (a b : XY) : XY := ⟨a.x + b.x, a.y + b.y⟩

/-- `Cell` (src/day12/src/lib.rs, lines 5-9). -/
inductive Cell where
  | Empty
  | Filled
deriving DecidableEq

/-- `Grid<Inner>` (src/common/src/grid.rs, lines 92-95): a row-major
two-dimensional array of cells with no rectangularity check. -/
structure Grid (α : Type) where
  cells : List (List α)
deriving DecidableEq

/-- `Grid::width` (grid.rs, lines 147-149): length of the first row, 0 if none. -/
def Grid.width {α : Type} (g : Grid α) : Nat :=
  (g.cells.head?.map List.length).getD 0

/-- `Grid::height` (grid.rs, lines 150-152): number of rows. -/
def Grid.height {α : Type} (g : Grid α) : Nat := g.cells.length

/-- `Grid::get` (grid.rs, lines 233-240): `cells.get(y)?.get(x)?`, the value at
a position, `none` when out of bounds (also the bounds rule of `get_mut`). -/
def Grid.get {α : Type} (g : Grid α) (xy : XY) : Option α :=
  (g.cells[xy.y]?).bind fun row => row[xy.x]?

/-- `Grid::new_sized` (grid.rs, lines 111-115). -/
def Grid.new_sized {α : Type} (width height : Nat) (value : α) : Grid α :=
  ⟨List.replicate height (List.replicate width value)⟩

/-- The effect of writing through `Grid::get_mut` (grid.rs, lines 242-244):
set the cell at `xy` when it exists, otherwise leave the grid unchanged
(callers check `get_mut`'s result before writing). -/
def Grid.set {α : Type} (g : Grid α) (xy : XY) (c : α) : Grid α :=
  match g.cells[xy.y]? with
  | none => g
  | some row => ⟨g.cells.set xy.y (row.set xy.x c)⟩

/-- The equal-row-length invariant the spec attributes to `Grid`. -/
def Grid.Rect {α : Type} (g : Grid α) : Prop :=
  ∀ row ∈ g.cells, row.length = g.width

instance {α : Type} (g : Grid α) : Decidable g.Rect :=
  List.decidableBAll _ _

/-- Collecting an iterator of fallible lookups: `some` of all values iff every
lookup succeeds, `none` as soon as an indexing panic would occur. -/
def optTraverse {α β : Type} (f : α → Option β) : List α → Option (List β)
  | [] => some []
  | a :: l =>
    match f a, optTraverse f l with
    | some b, some bs => some (b :: bs)
    | _, _ => none

/-- `Grid::rotate_90` (grid.rs, lines 157-169): 90° clockwise, built from
`self.cells[y][x]` for `x` in `0..width` and `y` in `(0..height).rev()`;
the indexing panics (`none`) on a ragged grid whose later rows are short. -/
def Grid.rotate_90 {α : Type} (g : Grid α) : Option (Grid α) :=
  (optTraverse
      (fun x => optTraverse (fun y => g.get ⟨x, y⟩) (List.range g.height).reverse)
      (List.range g.width)).map Grid.mk

/-- `Grid::rotate_180` (grid.rs, lines 170-179): rows in reverse order, each
row reversed; pure iterator code, no indexing, total. -/
def Grid.rotate_180 {α : Type} (g : Grid α) : Grid α :=
  ⟨g.cells.reverse.map List.reverse⟩

/-- `Grid::rotate_270` (grid.rs, lines 180-192): `self.cells[y][x]` for `x` in
`(0..width).rev()` and `y` in `0..height`. -/
def Grid.rotate_270 {α : Type} (g : Grid α) : Option (Grid α) :=
  (optTraverse
      (fun x => optTraverse (fun y => g.get ⟨x, y⟩) (List.range g.height))
      (List.range g.width).reverse).map Grid.mk

/-- `Grid::flip_horizontal` (grid.rs, lines 193-200): mirror each row. -/
def Grid.flip_horizontal {α : Type} (g : Grid α) : Grid α :=
  ⟨g.cells.map List.reverse⟩

/-- `Grid::flip_vertical` (grid.rs, lines 201-204): reverse the row order. -/
def Grid.flip_vertical {α : Type} (g : Grid α) : Grid α :=
  ⟨g.cells.reverse⟩

/-- The occupied-cell scan of `Present::new` (src/day12/src/lib.rs, lines
42-52): positions of `Filled` cells in row-major order, via the `cells()`
iterator of grid.rs (lines 222-231). -/
def gridOccupied (g : Grid Cell) : List XY :=
  g.cells.enum.flatMap fun yrow =>
    yrow.2.enum.filterMap fun xc =>
      if xc.2 = Cell.Filled then some ⟨xc.1, yrow.1⟩ else none

/-- `Present` (src/day12/src/lib.rs, lines 29-33).  Equality is the derived
structural equality over BOTH fields, exactly as `#[derive(PartialEq, Eq)]`
produces. -/
structure Present where
  grid : Grid Cell
  occupied_cells : List XY
deriving DecidableEq

/-- `Present::new` (lib.rs, lines 42-52). -/
def Present.new (g : Grid Cell) : Present := ⟨g, gridOccupied g⟩

/-- The data the manual `Hash` impl of `Present` (lib.rs, lines 35-39) feeds
to the hasher: `occupied_cells` only.  Two presents hash identically whenever
these lists are equal. -/
def Present.hashInput (p : Present) : List XY := p.occupied_cells

/-- `Present::rotate_90` (lib.rs, lines 56-58): transform the grid, re-wrap
through `Present::new`. -/
def Present.rotate_90 (p : Present) : Option Present :=
  p.grid.rotate_90.map Present.new

/-- `Present::rotate_180` (lib.rs, lines 59-61). -/
def Present.rotate_180 (p : Present) : Present :=
  Present.new p.grid.rotate_180

/-- `Present::rotate_270` (lib.rs, lines 62-64). -/
def Present.rotate_270 (p : Present) : Option Present :=
  p.grid.rotate_270.map Present.new

/-- `Present::flip_horizontal` (lib.rs, lines 65-67). -/
def Present.flip_horizontal (p : Present) : Present :=
  Present.new p.grid.flip_horizontal

/-- `Present::flip_vertical` (lib.rs, lines 68-70). -/
def Present.flip_vertical (p : Present) : Present :=
  Present.new p.grid.flip_vertical

/-- The `Present` invariant stated by the spec: `occupied_cells` is exactly
the derived filled-position list of the backing grid. -/
def Present.Wf (p : Present) : Prop := p.occupied_cells = gridOccupied p.grid

instance (p : Present) : Decidable p.Wf := by
  unfold Present.Wf
  infer_instance

/-- `Cell::from_str` (lib.rs, lines 18-27) applied to a single character, as
`Grid::from_lines` does. -/
def Cell.fromChar (c : Char) : Except String Cell :=
  if c = '.' then .ok Cell.Empty
  else if c = '#' then .ok Cell.Filled
  else .error "Invalid cell"

/-- Collecting an iterator of fallible parses (`collect::<Result<...>>`). -/
def exceptTraverse {ε α β : Type} (f : α → Except ε β) : List α → Except ε (List β)
  | [] => .ok []
  | a :: l =>
    match f a, exceptTraverse f l with
    | .ok b, .ok bs => .ok (b :: bs)
    | .error e, _ => .error e
    | .ok _, .error e => .error e

/-- `Grid::from_lines` (grid.rs, lines 129-143): parse every character of
every line; collect rows exactly as given, with NO row-width check. -/
def Grid.from_lines (lines : List String) : Except String (Grid Cell) :=
  (exceptTraverse (fun line => exceptTraverse Cell.fromChar line.data) lines).map Grid.mk

/-- `parse_grid_line` (src/day12/src/parse.rs, lines 59-61): `is_a(".#")`
accepts a line iff it is nonempty and made of `.`/`#` only. -/
def parse_grid_line_ok (s : String) : Bool :=
  s.length != 0 && s.data.all fun c => c = '.' || c = '#'

/-- `parse_present` (parse.rs, lines 47-57) after the index prefix, acting on
the present block's list of lines (the result of
`separated_list1(line_ending, parse_grid_line)`): every line must be a
nonempty run of `.`/`#`, then the lines go through `Grid::from_lines` and
`Present::new` unchanged. -/
def parse_present_lines (lines : List String) : Except String Present :=
  if lines.isEmpty then .error "expected at least one grid line"
  else if lines.all parse_grid_line_ok then (Grid.from_lines lines).map Present.new
  else .error "invalid grid line"

/-- Ways the solver aborts: `rotatePanic` = indexing panic inside
`rotate_90`/`rotate_270` while building the orientation array;
`underflowPanic` = `usize` subtraction underflow in `xy_possibilities`;
`canPlacePanic` = the `expect("xy should be in grid")` in
`can_place_present`; `placeError` = the `anyhow` error returned by
`place_present` and propagated by `?`. -/
inductive Fault where
  | rotatePanic
  | underflowPanic
  | canPlacePanic
  | placeError
deriving DecidableEq

deriving instance DecidableEq for Except

/-- `xy_possibilities` (src/day12/src/main.rs, lines 125-133):
`(0..grid_xsize - present_xsize + 1)` crossed with the same in `y`, `x`
outermost.  The `usize` subtractions underflow when a present dimension
exceeds the grid dimension; this is the modelled `underflowPanic`. -/
def xy_possibilities (grid_xsize grid_ysize present_xsize present_ysize : Nat) :
    Except Fault (List XY) :=
  if present_xsize ≤ grid_xsize then
    if present_ysize ≤ grid_ysize then
      .ok ((List.range (grid_xsize - present_xsize + 1)).flatMap fun x =>
        (List.range (grid_ysize - present_ysize + 1)).map fun y => XY.mk x y)
    else .error .underflowPanic
  else .error .underflowPanic

/-- The scan performed by `can_place_present` (main.rs, lines 135-141) over
the translated occupied cells, in order: `expect` panic on the first
out-of-bounds cell reached, short-circuit `false` on the first `Filled`
cell, `true` when all cells are `Empty`. -/
def can_place_cells (g : Grid Cell) : List XY → Except Fault Bool
  | [] => .ok true
  | c :: rest =>
    match g.get c with
    | none => .error .canPlacePanic
    | some Cell.Empty => can_place_cells g rest
    | some Cell.Filled => .ok false

/-- `can_place_present` (main.rs, lines 135-141). -/
def can_place_present (g : Grid Cell) (p : Present) (offset : XY) : Except Fault Bool :=
  can_place_cells g (p.occupied_cells.map fun c => c.add offset)

/-- The loop of `place_present` (main.rs, lines 115-123) over the translated
occupied cells: fill each cell in order; on the first out-of-bounds cell
return the error (`false`), keeping every earlier write. -/
def place_cells (g : Grid Cell) : List XY → Grid Cell × Bool
  | [] => (g, true)
  | c :: rest =>
    match g.get c with
    | none => (g, false)
    | some _ => place_cells (g.set c Cell.Filled) rest

/-- `place_present` (main.rs, lines 115-123).  The returned grid is the
mutated grid (partially mutated when the `Bool` is `false`). -/
def place_present (g : Grid Cell) (p : Present) (offset : XY) : Grid Cell × Bool :=
  place_cells g (p.occupied_cells.map fun c => c.add offset)

/-- `all_orientations` (main.rs, lines 80-90): the six-element array
`[identity, rotate_90, rotate_180, rotate_270, flip_horizontal,
flip_vertical]`, built eagerly; an indexing panic inside a rotation aborts
before any orientation is tried. -/
def all_orientations (p : Present) : Except Fault (List Present) :=
  match p.rotate_90, p.rotate_270 with
  | some r90, some r270 =>
    .ok [p, r90, p.rotate_180, r270, p.flip_horizontal, p.flip_vertical]
  | _, _ => .error .rotatePanic

/-- The offset loop of `place_present_and_solve` (main.rs, lines 92-113):
for each candidate offset, run the feasibility filter, and on success place
into a clone of the grid and recurse (`recur` is the solver on the remaining
present queue).  `.ok none` = all offsets exhausted without success. -/
def try_offsets (recur : Grid Cell → Except Fault (Option Unit)) (g : Grid Cell)
    (o : Present) : List XY → Except Fault (Option Unit)
  | [] => .ok none
  | xy :: rest =>
    match can_place_present g o xy with
    | .error f => .error f
    | .ok false => try_offsets recur g o rest
    | .ok true =>
      match place_present g o xy with
      | (_, false) => .error .placeError
      | (g2, true) =>
        match recur g2 with
        | .ok none => try_offsets recur g o rest
        | res => res

/-- `place_present_and_solve` (main.rs, lines 92-113): enumerate the offsets
for this orientation, then run the offset loop. -/
def place_and_solve (recur : Grid Cell → Except Fault (Option Unit)) (g : Grid Cell)
    (o : Present) : Except Fault (Option Unit) :=
  match xy_possibilities g.width g.height o.grid.width o.grid.height with
  | .error f => .error f
  | .ok xs => try_offsets recur g o xs

/-- The orientation loop of `solve_grid` (main.rs, lines 68-76). -/
def try_orients (recur : Grid Cell → Except Fault (Option Unit)) (g : Grid Cell) :
    List Present → Except Fault (Option Unit)
  | [] => .ok none
  | o :: rest =>
    match place_and_solve recur g o with
    | .ok none => try_orients recur g rest
    | res => res

/-- `solve_grid` (main.rs, lines 56-78), parameterised by the iteration
order `r` of the deduplicated orientation `HashSet`: an actual run uses some
`r` with `r l` a permutation of `l`. -/
def solve_with (r : List Present → List Present) :
    List Present → Grid Cell → Except Fault (Option Unit)
  | [], _ => .ok (some ())
  | p :: ps, g =>
    match all_orientations p with
    | .error f => .error f
    | .ok os => try_orients (fun g2 => solve_with r ps g2) g (r os.dedup)

/-- `solve_grid` under the canonical (identity) orientation order. -/
def solve_grid (g : Grid Cell) (ps : List Present) : Except Fault (Option Unit) :=
  solve_with (fun l => l) ps g

/-- Filling a list of cells in order, as the loop of `place_present` does on
the cells it reaches. -/
def fillCells (g : Grid Cell) (l : List XY) : Grid Cell :=
  l.foldl (fun h c => h.set c Cell.Filled) g

/-- The translated occupied cells of one placed present. -/
def placementCells (o : Present) (xy : XY) : List XY :=
  o.occupied_cells.map fun c => c.add xy

/-- Existence of a solution, phrased over the solver's own primitives but
independent of the orientation iteration order: each step picks some
orientation from the six-element orientation list, some offset from the
enumerated candidates, passes the feasibility check, places, and continues. -/
inductive Solvable : Grid Cell → List Present → Prop
  | nil (g : Grid Cell) : Solvable g []
  | cons (g : Grid Cell) (p : Present) (ps : List Present) (os : List Present)
      (o : Present) (xs : List XY) (xy : XY) (g2 : Grid Cell) :
      all_orientations p = .ok os → o ∈ os →
      xy_possibilities g.width g.height o.grid.width o.grid.height = .ok xs →
      xy ∈ xs →
      can_place_present g o xy = .ok true →
      place_present g o xy = (g2, true) →
      Solvable g2 ps → Solvable g (p :: ps)

/-! ## Basic lemmas about `Grid.get` and `Grid.set` -/

theorem Grid.set_eq_of_row {α : Type} (g : Grid α) (d : XY) (v : α) (row : List α)
    (hd : g.cells[d.y]? = some row) :
    g.set d v = ⟨g.cells.set d.y (row.set d.x v)⟩ := by
  unfold Grid.set
  rw [hd]

theorem Grid.set_eq_of_none {α : Type} (g : Grid α) (d : XY) (v : α)
    (hd : g.cells[d.y]? = none) :
    g.set d v = g := by
  unfold Grid.set
  rw [hd]

theorem Grid.get_set_isSome {α : Type} (g : Grid α) (d : XY) (v : α) (e : XY) :
    ((g.set d v).get e).isSome = ((g.get e).isSome) := by
  cases hd : g.cells[d.y]? with
  | none => rw [Grid.set_eq_of_none g d v hd]
  | some row =>
    rw [Grid.set_eq_of_row g d v row hd]
    unfold Grid.get
    by_cases hy : e.y = d.y
    · have hlt : d.y < g.cells.length := (List.getElem?_eq_some.mp hd).1
      simp only [hy]
      rw [List.getElem?_set_eq_of_lt _ hlt, hd]
      simp only [Option.some_bind]
      by_cases hx : e.x < row.length
      · by_cases hxd : e.x = d.x
        · rw [hxd, List.getElem?_set_eq_of_lt _ (hxd ▸ hx),
            List.getElem?_eq_getElem (hxd ▸ hx)]
          rfl
        · rw [List.getElem?_set_ne (fun h => hxd h.symm)]
      · rw [List.getElem?_eq_none (by simpa [List.length_set] using hx),
          List.getElem?_eq_none (by omega)]
    · simp only
      rw [List.getElem?_set_ne (fun h => hy h.symm)]

theorem Grid.get_set {α : Type} (g : Grid α) (d : XY) (v : α) (e : XY)
    (hd : (g.get d).isSome) :
    (g.set d v).get e = if e = d then some v else g.get e := by
  unfold Grid.get at hd
  cases hdy : g.cells[d.y]? with
  | none => simp [hdy] at hd
  | some row =>
    rw [hdy] at hd
    simp only [Option.some_bind] at hd
    have hxlt : d.x < row.length := by
      cases hx : row[d.x]? with
      | none => rw [hx] at hd; simp at hd
      | some a => exact (List.getElem?_eq_some.mp hx).1
    have hylt : d.y < g.cells.length := (List.getElem?_eq_some.mp hdy).1
    rw [Grid.set_eq_of_row g d v row hdy]
    unfold Grid.get
    by_cases hy : e.y = d.y
    · simp only [hy]
      rw [List.getElem?_set_eq_of_lt _ hylt]
      simp only [Option.some_bind]
      by_cases hx : e.x = d.x
      · have hed : e = d := by cases e; cases d; simp_all
        rw [if_pos hed, hx]
        rw [List.getElem?_set_eq_of_lt _ hxlt]
      · have hed : e ≠ d := by intro h; rw [h] at hx; exact hx rfl
        rw [if_neg hed]
        rw [List.getElem?_set_ne (fun h => hx h.symm), hdy]
        simp
    · have hed : e ≠ d := by intro h; rw [h] at hy; exact hy rfl
      rw [if_neg hed]
      simp only
      rw [List.getElem?_set_ne (fun h => hy h.symm)]

theorem Grid.width_set {α : Type} (g : Grid α) (d : XY) (v : α) :
    (g.set d v).width = g.width := by
  cases hd : g.cells[d.y]? with
  | none => rw [Grid.set_eq_of_none g d v hd]
  | some row =>
    rw [Grid.set_eq_of_row g d v row hd]
    unfold Grid.width
    cases hc : g.cells with
    | nil => rw [hc] at hd; simp at hd
    | cons r rs =>
      cases hy : d.y with
      | zero =>
        rw [hc, hy] at hd
        simp only [List.getElem?_cons_zero, Option.some.injEq] at hd
        subst hd
        simp [List.set]
      | succ n => simp [List.set]

theorem Grid.height_set {α : Type} (g : Grid α) (d : XY) (v : α) :
    (g.set d v).height = g.height := by
  cases hd : g.cells[d.y]? with
  | none => rw [Grid.set_eq_of_none g d v hd]
  | some row =>
    rw [Grid.set_eq_of_row g d v row hd]
    unfold Grid.height
    simp

theorem Grid.rect_set {α : Type} (g : Grid α) (d : XY) (v : α) (hr : g.Rect) :
    (g.set d v).Rect := by
  intro row hrow
  rw [Grid.width_set]
  cases hd : g.cells[d.y]? with
  | none => rw [Grid.set_eq_of_none g d v hd] at hrow; exact hr row hrow
  | some r0 =>
    rw [Grid.set_eq_of_row g d v r0 hd] at hrow
    simp only at hrow
    rcases List.mem_or_eq_of_mem_set hrow with h | h
    · exact hr row h
    · subst h
      rw [List.length_set]
      exact hr r0 (List.getElem?_mem hd)

theorem Grid.get_set_none {α : Type} (g : Grid α) (d : XY) (v : α) (e : XY)
    (h : g.get e = none) : (g.set d v).get e = none := by
  have hs := Grid.get_set_isSome g d v e
  rw [h] at hs
  cases hx : (g.set d v).get e with
  | none => rfl
  | some a => rw [hx] at hs; simp at hs

theorem Grid.get_isSome_iff {α : Type} (g : Grid α) (hr : g.Rect) (xy : XY) :
    (g.get xy).isSome ↔ xy.x < g.width ∧ xy.y < g.height := by
  unfold Grid.get Grid.height
  constructor
  · intro h
    cases hy : g.cells[xy.y]? with
    | none => rw [hy] at h; simp at h
    | some row =>
      rw [hy] at h
      simp only [Option.some_bind] at h
      have hx : xy.x < row.length := by
        cases hx' : row[xy.x]? with
        | none => rw [hx'] at h; simp at h
        | some a => exact (List.getElem?_eq_some.mp hx').1
      rw [hr row (List.getElem?_mem hy)] at hx
      exact ⟨hx, (List.getElem?_eq_some.mp hy).1⟩
  · rintro ⟨hx, hy⟩
    rw [List.getElem?_eq_getElem hy]
    simp only [Option.some_bind]
    rw [List.getElem?_eq_getElem]
    · simp
    · rw [hr _ (List.getElem_mem hy)]
      exact hx

/-! ## The occupied-cell scan -/

theorem enumFrom_fst_ge {α : Type} {l : List α} {n : Nat} {q : Nat × α}
    (h : q ∈ l.enumFrom n) : n ≤ q.1 := by
  induction l generalizing n with
  | nil => simp at h
  | cons a l ih =>
    rw [List.enumFrom_cons] at h
    rcases List.mem_cons.mp h with h | h
    · subst h; exact Nat.le_refl n
    · exact Nat.le_of_succ_le (ih h)

theorem enumFrom_nodup {α : Type} (l : List α) (n : Nat) : (l.enumFrom n).Nodup := by
  induction l generalizing n with
  | nil => simp
  | cons a l ih =>
    rw [List.enumFrom_cons]
    rw [List.nodup_cons]
    refine ⟨fun h => ?_, ih (n + 1)⟩
    have := enumFrom_fst_ge h
    omega

theorem mem_occRow {row : List Cell} {y : Nat} {c : XY} :
    (c ∈ row.enum.filterMap fun xc =>
      if xc.2 = Cell.Filled then some (⟨xc.1, y⟩ : XY) else none) ↔
    c.y = y ∧ row[c.x]? = some Cell.Filled := by
  rw [List.mem_filterMap]
  constructor
  · rintro ⟨⟨x, cv⟩, hmem, hif⟩
    rw [List.mk_mem_enum_iff_getElem?] at hmem
    by_cases hcv : cv = Cell.Filled
    · rw [if_pos hcv] at hif
      cases hif
      subst hcv
      exact ⟨rfl, hmem⟩
    · rw [if_neg hcv] at hif
      cases hif
  · rintro ⟨hy, hx⟩
    refine ⟨(c.x, Cell.Filled), ?_, ?_⟩
    · rw [List.mk_mem_enum_iff_getElem?]
      exact hx
    · rw [if_pos rfl]
      cases c
      simp_all

theorem occRow_nodup (row : List Cell) (y : Nat) :
    (row.enum.filterMap fun xc =>
      if xc.2 = Cell.Filled then some (⟨xc.1, y⟩ : XY) else none).Nodup := by
  apply List.Nodup.filterMap
  · rintro ⟨x1, c1⟩ ⟨x2, c2⟩ c h1 h2
    by_cases hc1 : c1 = Cell.Filled
    · rw [if_pos hc1] at h1
      by_cases hc2 : c2 = Cell.Filled
      · rw [if_pos hc2] at h2
        cases h1
        cases h2
        simp_all
      · rw [if_neg hc2] at h2; cases h2
    · rw [if_neg hc1] at h1; cases h1
  · exact enumFrom_nodup row 0

theorem mem_gridOccupied {g : Grid Cell} {c : XY} :
    c ∈ gridOccupied g ↔ g.get c = some Cell.Filled := by
  unfold gridOccupied Grid.get
  rw [List.mem_flatMap]
  constructor
  · rintro ⟨⟨y, row⟩, hrow, hc⟩
    rw [List.mk_mem_enum_iff_getElem?] at hrow
    rw [mem_occRow] at hc
    obtain ⟨hy, hx⟩ := hc
    rw [hy, hrow]
    simpa using hx
  · intro h
    cases hy : g.cells[c.y]? with
    | none => rw [hy] at h; simp at h
    | some row =>
      rw [hy] at h
      simp only [Option.some_bind] at h
      exact ⟨(c.y, row), by rw [List.mk_mem_enum_iff_getElem?]; exact hy,
        mem_occRow.mpr ⟨rfl, h⟩⟩

theorem occ_flatMap_nodup (rows : List (List Cell)) (n : Nat) :
    ((rows.enumFrom n).flatMap fun yrow =>
      yrow.2.enum.filterMap fun xc =>
        if xc.2 = Cell.Filled then some (⟨xc.1, yrow.1⟩ : XY) else none).Nodup := by
  induction rows generalizing n with
  | nil => simp
  | cons row rows ih =>
    rw [List.enumFrom_cons, List.flatMap_cons]
    apply List.Nodup.append
    · exact occRow_nodup row n
    · exact ih (n + 1)
    · intro a ha hb
      rw [mem_occRow] at ha
      rw [List.mem_flatMap] at hb
      obtain ⟨⟨y, row'⟩, hrow', hc⟩ := hb
      have hge := enumFrom_fst_ge hrow'
      rw [mem_occRow] at hc
      obtain ⟨hy1, _⟩ := ha
      obtain ⟨hy2, _⟩ := hc
      simp only at hy2 hge
      omega

theorem gridOccupied_nodup (g : Grid Cell) : (gridOccupied g).Nodup :=
  occ_flatMap_nodup g.cells 0

theorem Present.new_wf (g : Grid Cell) : (Present.new g).Wf := rfl

theorem Present.wf_nodup {p : Present} (h : p.Wf) : p.occupied_cells.Nodup := by
  rw [h]
  exact gridOccupied_nodup p.grid

/-! ## Feasibility and placement -/

theorem can_place_cells_ok_true {g : Grid Cell} {l : List XY} :
    can_place_cells g l = .ok true ↔ ∀ c ∈ l, g.get c = some Cell.Empty := by
  induction l with
  | nil => simp [can_place_cells]
  | cons c rest ih =>
    cases h : g.get c with
    | none => simp [can_place_cells, h]
    | some cv =>
      cases cv
      · simp [can_place_cells, h, ih]
      · simp [can_place_cells, h]

theorem can_place_cells_isOk {g : Grid Cell} {l : List XY}
    (h : ∀ c ∈ l, (g.get c).isSome) : ∃ b, can_place_cells g l = .ok b := by
  induction l with
  | nil => exact ⟨true, rfl⟩
  | cons c rest ih =>
    have hc := h c (by simp)
    cases hgc : g.get c with
    | none => rw [hgc] at hc; simp at hc
    | some cv =>
      cases cv
      · obtain ⟨b, hb⟩ := ih fun d hd => h d (by simp [hd])
        exact ⟨b, by simp [can_place_cells, hgc, hb]⟩
      · exact ⟨false, by simp [can_place_cells, hgc]⟩

theorem can_place_cells_panic {g : Grid Cell} {l : List XY}
    (hnf : ∀ c ∈ l, g.get c ≠ some Cell.Filled) (hoob : ∃ c ∈ l, g.get c = none) :
    can_place_cells g l = .error .canPlacePanic := by
  induction l with
  | nil => simp at hoob
  | cons c rest ih =>
    cases hgc : g.get c with
    | none => simp [can_place_cells, hgc]
    | some cv =>
      cases cv
      · obtain ⟨d, hd, hdnone⟩ := hoob
        rcases List.mem_cons.mp hd with rfl | hd'
        · rw [hgc] at hdnone; cases hdnone
        · have := ih (fun e he => hnf e (by simp [he])) ⟨d, hd', hdnone⟩
          simp [can_place_cells, hgc, this]
      · exact absurd hgc (hnf c (by simp))

theorem place_cells_inbounds {l : List XY} {g : Grid Cell}
    (h : ∀ c ∈ l, (g.get c).isSome) :
    (place_cells g l).2 = true ∧
      ∀ e, (place_cells g l).1.get e =
        if e ∈ l then some Cell.Filled else g.get e := by
  induction l generalizing g with
  | nil => simp [place_cells]
  | cons c rest ih =>
    have hc := h c (by simp)
    cases hgc : g.get c with
    | none => rw [hgc] at hc; simp at hc
    | some cv =>
      have hrest : ∀ d ∈ rest, ((g.set c Cell.Filled).get d).isSome := by
        intro d hd
        rw [Grid.get_set_isSome]
        exact h d (by simp [hd])
      obtain ⟨hb, hget⟩ := ih hrest
      have hstep : place_cells g (c :: rest) = place_cells (g.set c Cell.Filled) rest := by
        simp [place_cells, hgc]
      constructor
      · rw [hstep]; exact hb
      · intro e
        rw [hstep, hget e]
        by_cases he : e ∈ rest
        · simp [he]
        · rw [if_neg he]
          rw [Grid.get_set g c Cell.Filled e (by rw [hgc]; rfl)]
          by_cases hec : e = c
          · simp [hec]
          · simp [hec, he]

theorem place_cells_oob {l : List XY} {g : Grid Cell}
    (h : ∃ c ∈ l, g.get c = none) : (place_cells g l).2 = false := by
  induction l generalizing g with
  | nil => simp at h
  | cons c rest ih =>
    cases hgc : g.get c with
    | none => simp [place_cells, hgc]
    | some cv =>
      obtain ⟨d, hd, hnone⟩ := h
      rcases List.mem_cons.mp hd with rfl | hd'
      · rw [hgc] at hnone; cases hnone
      · have := ih ⟨d, hd', Grid.get_set_none g c Cell.Filled d hnone⟩
        simp [place_cells, hgc, this]

theorem place_cells_split {g : Grid Cell} {pre post : List XY} {c : XY}
    (hpre : ∀ d ∈ pre, (g.get d).isSome) (hc : g.get c = none) :
    place_cells g (pre ++ c :: post) = (fillCells g pre, false) := by
  induction pre generalizing g with
  | nil => simp [place_cells, hc, fillCells]
  | cons d pre' ih =>
    have hd := hpre d (by simp)
    cases hgd : g.get d with
    | none => rw [hgd] at hd; simp at hd
    | some dv =>
      have h1 : ∀ e ∈ pre', ((g.set d Cell.Filled).get e).isSome := by
        intro e he
        rw [Grid.get_set_isSome]
        exact hpre e (by simp [he])
      have h2 : (g.set d Cell.Filled).get c = none :=
        Grid.get_set_none g d Cell.Filled c hc
      rw [List.cons_append]
      have hstep : place_cells g (d :: (pre' ++ c :: post)) =
          place_cells (g.set d Cell.Filled) (pre' ++ c :: post) := by
        simp [place_cells, hgd]
      rw [hstep, ih h1 h2]
      rfl

theorem place_cells_shape {l : List XY} {g : Grid Cell} :
    (place_cells g l).1.width = g.width ∧ (place_cells g l).1.height = g.height ∧
      (g.Rect → (place_cells g l).1.Rect) := by
  induction l generalizing g with
  | nil => simp [place_cells]
  | cons c rest ih =>
    cases hgc : g.get c with
    | none => simp [place_cells, hgc]
    | some cv =>
      have hstep : place_cells g (c :: rest) = place_cells (g.set c Cell.Filled) rest := by
        simp [place_cells, hgc]
      rw [hstep]
      obtain ⟨h1, h2, h3⟩ := @ih (g.set c Cell.Filled)
      refine ⟨?_, ?_, ?_⟩
      · rw [h1, Grid.width_set]
      · rw [h2, Grid.height_set]
      · intro hr
        exact h3 (Grid.rect_set g c Cell.Filled hr)

/-! ## Offset enumeration -/

theorem xy_possibilities_ok_iff {gx gy px py : Nat} :
    (∃ xs, xy_possibilities gx gy px py = .ok xs) ↔ px ≤ gx ∧ py ≤ gy := by
  unfold xy_possibilities
  by_cases h1 : px ≤ gx <;> by_cases h2 : py ≤ gy <;> simp [h1, h2]

theorem mem_xy_possibilities {gx gy px py : Nat} {xs : List XY}
    (hok : xy_possibilities gx gy px py = .ok xs) {xy : XY} (hmem : xy ∈ xs) :
    px ≤ gx ∧ py ≤ gy ∧ xy.x + px ≤ gx ∧ xy.y + py ≤ gy := by
  unfold xy_possibilities at hok
  by_cases h1 : px ≤ gx
  · by_cases h2 : py ≤ gy
    · rw [if_pos h1, if_pos h2] at hok
      cases hok
      rw [List.mem_flatMap] at hmem
      obtain ⟨x, hx, hy⟩ := hmem
      rw [List.mem_range] at hx
      rw [List.mem_map] at hy
      obtain ⟨y, hy', rfl⟩ := hy
      rw [List.mem_range] at hy'
      exact ⟨h1, h2, by simp; omega, by simp; omega⟩
    · rw [if_pos h1, if_neg h2] at hok; cases hok
  · rw [if_neg h1] at hok; cases hok

theorem occupied_bounds {p : Present} (hwf : p.Wf) (hrp : p.grid.Rect) {c : XY}
    (hc : c ∈ p.occupied_cells) : c.x < p.grid.width ∧ c.y < p.grid.height := by
  rw [hwf, mem_gridOccupied] at hc
  have hs : (p.grid.get c).isSome := by rw [hc]; rfl
  exact (Grid.get_isSome_iff p.grid hrp c).mp hs

theorem translated_inbounds {g : Grid Cell} {p : Present} {off : XY}
    (hwf : p.Wf) (hrp : p.grid.Rect) (hrg : g.Rect)
    (hx : off.x + p.grid.width ≤ g.width) (hy : off.y + p.grid.height ≤ g.height)
    {c : XY} (hc : c ∈ p.occupied_cells) : (g.get (c.add off)).isSome := by
  obtain ⟨hcx, hcy⟩ := occupied_bounds hwf hrp hc
  apply (Grid.get_isSome_iff g hrg _).mpr
  unfold XY.add
  constructor <;> simp <;> omega

/-! ## Rotation characterisation -/

theorem optTraverse_eq_some {α β : Type} {f : α → Option β} {l : List α}
    (h : ∀ a ∈ l, (f a).isSome) :
    ∃ res, optTraverse f l = some res ∧ res.length = l.length ∧
      ∀ j : Nat, res[j]? = (l[j]?).bind f := by
  induction l with
  | nil => exact ⟨[], rfl, rfl, by intro j; simp⟩
  | cons a l ih =>
    have ha := h a (by simp)
    cases hfa : f a with
    | none => rw [hfa] at ha; simp at ha
    | some b =>
      obtain ⟨res, h1, h2, h3⟩ := ih fun d hd => h d (by simp [hd])
      refine ⟨b :: res, ?_, by simpa using h2, ?_⟩
      · simp [optTraverse, hfa, h1]
      · intro j
        cases j with
        | zero => simp [hfa]
        | succ n => simpa using h3 n

theorem Grid.get_eq_none_of {α : Type} (g : Grid α) (hr : g.Rect) (xy : XY)
    (h : ¬(xy.x < g.width ∧ xy.y < g.height)) : g.get xy = none := by
  cases hx : g.get xy with
  | none => rfl
  | some a => exact absurd ((Grid.get_isSome_iff g hr xy).mp (by rw [hx]; rfl)) h

theorem Grid.ext_get {α : Type} (g g' : Grid α) (hh : g.height = g'.height)
    (hc : ∀ y x : Nat, g.get ⟨x, y⟩ = g'.get ⟨x, y⟩) : g = g' := by
  cases g with
  | mk cells =>
    cases g' with
    | mk cells' =>
      have hlen : cells.length = cells'.length := hh
      congr 1
      apply List.ext_getElem?
      intro y
      cases hy : cells[y]? with
      | none =>
        have h1 : cells.length ≤ y := List.getElem?_eq_none_iff.mp hy
        exact (List.getElem?_eq_none (by omega)).symm
      | some r =>
        have h1 : y < cells.length := (List.getElem?_eq_some.mp hy).1
        cases hy' : cells'[y]? with
        | none =>
          have h2 : cells'.length ≤ y := List.getElem?_eq_none_iff.mp hy'
          omega
        | some r' =>
          have hr : r = r' := by
            apply List.ext_getElem?
            intro x
            have hcx := hc y x
            unfold Grid.get at hcx
            simp only at hcx
            rw [hy, hy'] at hcx
            simpa using hcx
          rw [hr]

theorem grid_width_of_first {α : Type} (rows : List (List α)) (r : List α) (n : Nat)
    (h0 : rows[0]? = some r) (hlen : r.length = n) : (Grid.mk rows).width = n := by
  unfold Grid.width
  cases rows with
  | nil => simp at h0
  | cons a rs =>
    simp only [List.getElem?_cons_zero, Option.some.injEq] at h0
    subst h0
    simpa using hlen

theorem grid_rect_of_rows {α : Type} (rows : List (List α)) (n : Nat)
    (hall : ∀ i : Nat, i < rows.length → ∃ row, rows[i]? = some row ∧ row.length = n)
    (hwidth : (Grid.mk rows).width = n) : (Grid.mk rows).Rect := by
  intro row hrow
  rw [hwidth]
  obtain ⟨i, hi, hir⟩ := List.getElem_of_mem hrow
  obtain ⟨row', h1, h2⟩ := hall i hi
  have h1' : some rows[i] = some row' := by
    rw [← List.getElem?_eq_getElem hi]
    exact h1
  cases h1'
  rw [← hir]
  exact h2

theorem grid_get_of_rows {α : Type} (rows : List (List α)) (i j : Nat) {row : List α}
    (h1 : rows[i]? = some row) : (Grid.mk rows).get ⟨j, i⟩ = row[j]? := by
  unfold Grid.get
  simp only
  rw [h1]
  simp

theorem grid_get_of_rows_none {α : Type} (rows : List (List α)) (i j : Nat)
    (h1 : rows.length ≤ i) : (Grid.mk rows).get ⟨j, i⟩ = none := by
  unfold Grid.get
  simp only
  rw [List.getElem?_eq_none h1]
  rfl

theorem rotate_90_char {α : Type} (g : Grid α) (hr : g.Rect) (hw : 0 < g.width)
    (hh : 0 < g.height) :
    ∃ g', g.rotate_90 = some g' ∧ g'.Rect ∧ g'.height = g.width ∧
      g'.width = g.height ∧
      ∀ i j : Nat, g'.get ⟨j, i⟩ =
        if i < g.width ∧ j < g.height then g.get ⟨i, g.height - 1 - j⟩ else none := by
  have hsome : ∀ x : Nat, x < g.width →
      ∃ row, optTraverse (fun y => g.get ⟨x, y⟩) (List.range g.height).reverse = some row ∧
        row.length = g.height ∧
        ∀ j : Nat, row[j]? = if j < g.height then g.get ⟨x, g.height - 1 - j⟩ else none := by
    intro x hx
    have hys : ∀ y ∈ (List.range g.height).reverse, ((fun y => g.get ⟨x, y⟩) y).isSome := by
      intro y hy
      rw [List.mem_reverse, List.mem_range] at hy
      exact (Grid.get_isSome_iff g hr ⟨x, y⟩).mpr ⟨hx, hy⟩
    obtain ⟨row, h1, h2, h3⟩ := optTraverse_eq_some hys
    refine ⟨row, h1, by simpa using h2, ?_⟩
    intro j
    rw [h3 j]
    by_cases hj : j < g.height
    · rw [if_pos hj]
      rw [List.getElem?_reverse (by simpa using hj), List.length_range,
        List.getElem?_range (by omega)]
      simp
    · rw [if_neg hj]
      rw [List.getElem?_eq_none (by simpa using Nat.le_of_not_lt hj)]
      rfl
  have hin : ∀ x ∈ List.range g.width,
      (optTraverse (fun y => g.get ⟨x, y⟩) (List.range g.height).reverse).isSome := by
    intro x hx
    rw [List.mem_range] at hx
    obtain ⟨row, h1, _, _⟩ := hsome x hx
    rw [h1]
    rfl
  obtain ⟨rows, hrows, hlen, hget⟩ := optTraverse_eq_some hin
  rw [List.length_range] at hlen
  have hrowchar : ∀ x : Nat, x < g.width → ∃ row, rows[x]? = some row ∧
      row.length = g.height ∧
      ∀ j : Nat, row[j]? = if j < g.height then g.get ⟨x, g.height - 1 - j⟩ else none := by
    intro x hx
    obtain ⟨row, h1, h2, h3⟩ := hsome x hx
    refine ⟨row, ?_, h2, h3⟩
    rw [hget x, List.getElem?_range hx]
    simpa using h1
  obtain ⟨row0, h00, hlen0, _⟩ := hrowchar 0 hw
  have hwidth : (Grid.mk rows).width = g.height := grid_width_of_first rows row0 _ h00 hlen0
  refine ⟨⟨rows⟩, ?_, ?_, hlen, hwidth, ?_⟩
  · unfold Grid.rotate_90
    rw [hrows]
    rfl
  · refine grid_rect_of_rows rows g.height ?_ hwidth
    intro i hi
    obtain ⟨row, h1, h2, _⟩ := hrowchar i (by omega)
    exact ⟨row, h1, h2⟩
  · intro i j
    by_cases hi : i < g.width
    · obtain ⟨row, h1, _, h3⟩ := hrowchar i hi
      rw [grid_get_of_rows rows i j h1, h3 j]
      by_cases hj : j < g.height
      · rw [if_pos hj, if_pos ⟨hi, hj⟩]
      · rw [if_neg hj, if_neg (fun hc => hj hc.2)]
    · rw [grid_get_of_rows_none rows i j (by omega), if_neg (fun hc => hi hc.1)]

theorem rotate_270_char {α : Type} (g : Grid α) (hr : g.Rect) (hw : 0 < g.width)
    (hh : 0 < g.height) :
    ∃ g', g.rotate_270 = some g' ∧ g'.Rect ∧ g'.height = g.width ∧
      g'.width = g.height ∧
      ∀ i j : Nat, g'.get ⟨j, i⟩ =
        if i < g.width ∧ j < g.height then g.get ⟨g.width - 1 - i, j⟩ else none := by
  have hsome : ∀ x : Nat, x < g.width →
      ∃ row, optTraverse (fun y => g.get ⟨x, y⟩) (List.range g.height) = some row ∧
        row.length = g.height ∧
        ∀ j : Nat, row[j]? = if j < g.height then g.get ⟨x, j⟩ else none := by
    intro x hx
    have hys : ∀ y ∈ List.range g.height, ((fun y => g.get ⟨x, y⟩) y).isSome := by
      intro y hy
      rw [List.mem_range] at hy
      exact (Grid.get_isSome_iff g hr ⟨x, y⟩).mpr ⟨hx, hy⟩
    obtain ⟨row, h1, h2, h3⟩ := optTraverse_eq_some hys
    refine ⟨row, h1, by simpa using h2, ?_⟩
    intro j
    rw [h3 j]
    by_cases hj : j < g.height
    · rw [if_pos hj, List.getElem?_range hj]
      simp
    · rw [if_neg hj]
      rw [List.getElem?_eq_none (by simpa using Nat.le_of_not_lt hj)]
      rfl
  have hin : ∀ x ∈ (List.range g.width).reverse,
      (optTraverse (fun y => g.get ⟨x, y⟩) (List.range g.height)).isSome := by
    intro x hx
    rw [List.mem_reverse, List.mem_range] at hx
    obtain ⟨row, h1, _, _⟩ := hsome x hx
    rw [h1]
    rfl
  obtain ⟨rows, hrows, hlen, hget⟩ := optTraverse_eq_some hin
  rw [List.length_reverse, List.length_range] at hlen
  have hrowchar : ∀ i : Nat, i < g.width → ∃ row, rows[i]? = some row ∧
      row.length = g.height ∧
      ∀ j : Nat, row[j]? = if j < g.height then g.get ⟨g.width - 1 - i, j⟩ else none := by
    intro i hi
    obtain ⟨row, h1, h2, h3⟩ := hsome (g.width - 1 - i) (by omega)
    refine ⟨row, ?_, h2, h3⟩
    rw [hget i]
    rw [List.getElem?_reverse (by simpa using hi), List.length_range,
      List.getElem?_range (by omega)]
    simpa using h1
  obtain ⟨row0, h00, hlen0, _⟩ := hrowchar 0 hw
  have hwidth : (Grid.mk rows).width = g.height := grid_width_of_first rows row0 _ h00 hlen0
  refine ⟨⟨rows⟩, ?_, ?_, hlen, hwidth, ?_⟩
  · unfold Grid.rotate_270
    rw [hrows]
    rfl
  · refine grid_rect_of_rows rows g.height ?_ hwidth
    intro i hi
    obtain ⟨row, h1, h2, _⟩ := hrowchar i (by omega)
    exact ⟨row, h1, h2⟩
  · intro i j
    by_cases hi : i < g.width
    · obtain ⟨row, h1, _, h3⟩ := hrowchar i hi
      rw [grid_get_of_rows rows i j h1, h3 j]
      by_cases hj : j < g.height
      · rw [if_pos hj, if_pos ⟨hi, hj⟩]
      · rw [if_neg hj, if_neg (fun hc => hj hc.2)]
    · rw [grid_get_of_rows_none rows i j (by omega), if_neg (fun hc => hi hc.1)]

/-! ## Transform algebra -/

theorem flip_horizontal_involutive {α : Type} (g : Grid α) :
    g.flip_horizontal.flip_horizontal = g := by
  unfold Grid.flip_horizontal
  cases g with
  | mk cells =>
    simp only
    congr 1
    rw [List.map_map]
    have : (List.reverse ∘ List.reverse : List α → List α) = id := by
      funext l
      simp
    rw [this, List.map_id]

theorem rotate_180_eq_flips {α : Type} (g : Grid α) :
    g.rotate_180 = g.flip_horizontal.flip_vertical := by
  unfold Grid.rotate_180 Grid.flip_horizontal Grid.flip_vertical
  cases g with
  | mk cells =>
    simp only
    congr 1
    rw [List.map_reverse]

theorem grid_empty_of_height_zero {α : Type} (g : Grid α) (h : g.height = 0) :
    g = ⟨[]⟩ := by
  cases g with
  | mk cells =>
    cases cells with
    | nil => rfl
    | cons r rs => simp [Grid.height] at h

theorem rot4_eq {α : Type} (g : Grid α) (hr : g.Rect) (hdeg : g.width = 0 → g.height = 0) :
    (((g.rotate_90.bind Grid.rotate_90).bind Grid.rotate_90).bind Grid.rotate_90) = some g := by
  by_cases h0 : g.height = 0
  · rw [grid_empty_of_height_zero g h0]
    rfl
  · have hh : 0 < g.height := Nat.pos_of_ne_zero h0
    have hw : 0 < g.width := by
      rcases Nat.eq_zero_or_pos g.width with h | h
      · exact absurd (hdeg h) h0
      · exact h
    obtain ⟨g1, e1, r1, hh1, hw1, c1⟩ := rotate_90_char g hr hw hh
    obtain ⟨g2, e2, r2, hh2, hw2, c2⟩ := rotate_90_char g1 r1 (by omega) (by omega)
    obtain ⟨g3, e3, r3, hh3, hw3, c3⟩ := rotate_90_char g2 r2 (by omega) (by omega)
    obtain ⟨g4, e4, r4, hh4, hw4, c4⟩ := rotate_90_char g3 r3 (by omega) (by omega)
    rw [e1, Option.some_bind, e2, Option.some_bind, e3, Option.some_bind, e4]
    suffices hgg : g4 = g by rw [hgg]
    apply Grid.ext_get g4 g (by omega)
    intro y x
    by_cases hin : x < g.width ∧ y < g.height
    · obtain ⟨hx, hy⟩ := hin
      rw [c4 y x, if_pos ⟨by omega, by omega⟩]
      rw [c3 (g3.height - 1 - x) y, if_pos ⟨by omega, by omega⟩]
      rw [c2 (g2.height - 1 - y) (g3.height - 1 - x), if_pos ⟨by omega, by omega⟩]
      rw [c1 (g1.height - 1 - (g3.height - 1 - x)) (g2.height - 1 - y),
        if_pos ⟨by omega, by omega⟩]
      congr 1
      simp only [XY.mk.injEq]
      omega
    · rw [c4 y x, if_neg (by omega)]
      exact (Grid.get_eq_none_of g hr ⟨x, y⟩ hin).symm

theorem rot90_rot270 {α : Type} (g : Grid α) (hr : g.Rect)
    (hdeg : g.width = 0 → g.height = 0) :
    g.rotate_90.bind Grid.rotate_270 = some g := by
  by_cases h0 : g.height = 0
  · rw [grid_empty_of_height_zero g h0]
    rfl
  · have hh : 0 < g.height := Nat.pos_of_ne_zero h0
    have hw : 0 < g.width := by
      rcases Nat.eq_zero_or_pos g.width with h | h
      · exact absurd (hdeg h) h0
      · exact h
    obtain ⟨g1, e1, r1, hh1, hw1, c1⟩ := rotate_90_char g hr hw hh
    obtain ⟨g2, e2, r2, hh2, hw2, c2⟩ := rotate_270_char g1 r1 (by omega) (by omega)
    rw [e1, Option.some_bind, e2]
    suffices hgg : g2 = g by rw [hgg]
    apply Grid.ext_get g2 g (by omega)
    intro y x
    by_cases hin : x < g.width ∧ y < g.height
    · obtain ⟨hx, hy⟩ := hin
      rw [c2 y x, if_pos ⟨by omega, by omega⟩]
      rw [c1 x (g1.width - 1 - y), if_pos ⟨by omega, by omega⟩]
      congr 1
      simp only [XY.mk.injEq]
      exact ⟨trivial, by omega⟩
    · rw [c2 y x, if_neg (by omega)]
      exact (Grid.get_eq_none_of g hr ⟨x, y⟩ hin).symm

theorem rot270_rot90 {α : Type} (g : Grid α) (hr : g.Rect)
    (hdeg : g.width = 0 → g.height = 0) :
    g.rotate_270.bind Grid.rotate_90 = some g := by
  by_cases h0 : g.height = 0
  · rw [grid_empty_of_height_zero g h0]
    rfl
  · have hh : 0 < g.height := Nat.pos_of_ne_zero h0
    have hw : 0 < g.width := by
      rcases Nat.eq_zero_or_pos g.width with h | h
      · exact absurd (hdeg h) h0
      · exact h
    obtain ⟨g1, e1, r1, hh1, hw1, c1⟩ := rotate_270_char g hr hw hh
    obtain ⟨g2, e2, r2, hh2, hw2, c2⟩ := rotate_90_char g1 r1 (by omega) (by omega)
    rw [e1, Option.some_bind, e2]
    suffices hgg : g2 = g by rw [hgg]
    apply Grid.ext_get g2 g (by omega)
    intro y x
    by_cases hin : x < g.width ∧ y < g.height
    · obtain ⟨hx, hy⟩ := hin
      rw [c2 y x, if_pos ⟨by omega, by omega⟩]
      rw [c1 (g1.height - 1 - x) y, if_pos ⟨by omega, by omega⟩]
      congr 1
      simp only [XY.mk.injEq]
      exact ⟨by omega, trivial⟩
    · rw [c2 y x, if_neg (by omega)]
      exact (Grid.get_eq_none_of g hr ⟨x, y⟩ hin).symm

/-! ## Parsing lemmas -/

theorem exceptTraverse_isOk {ε α β : Type} (f : α → Except ε β) (l : List α) :
    (∃ bs, exceptTraverse f l = .ok bs) ↔ ∀ a ∈ l, ∃ b, f a = .ok b := by
  induction l with
  | nil => simp [exceptTraverse]
  | cons a l ih =>
    cases hfa : f a with
    | error e =>
      have hstep : exceptTraverse f (a :: l) = .error e := by
        cases hl : exceptTraverse f l <;> simp [exceptTraverse, hfa, hl]
      constructor
      · rintro ⟨bs, hbs⟩
        rw [hstep] at hbs
        cases hbs
      · intro h
        obtain ⟨b, hb⟩ := h a (by simp)
        rw [hfa] at hb
        cases hb
    | ok b =>
      cases hl : exceptTraverse f l with
      | error e =>
        have hstep : exceptTraverse f (a :: l) = .error e := by
          simp [exceptTraverse, hfa, hl]
        constructor
        · rintro ⟨bs, hbs⟩
          rw [hstep] at hbs
          cases hbs
        · intro h
          obtain ⟨bs, hbs⟩ := ih.mpr fun d hd => h d (by simp [hd])
          rw [hl] at hbs
          cases hbs
      | ok bs =>
        have hstep : exceptTraverse f (a :: l) = .ok (b :: bs) := by
          simp [exceptTraverse, hfa, hl]
        constructor
        · intro _ d hd
          rcases List.mem_cons.mp hd with rfl | hd'
          · exact ⟨b, hfa⟩
          · exact (ih.mp ⟨bs, hl⟩) d hd'
        · intro _
          exact ⟨b :: bs, hstep⟩

theorem Cell.fromChar_isOk (c : Char) :
    (∃ b, Cell.fromChar c = .ok b) ↔ c = '.' ∨ c = '#' := by
  unfold Cell.fromChar
  by_cases h1 : c = '.' <;> by_cases h2 : c = '#' <;> simp [h1, h2]

/-! ## Unfolding equations for the solver wrappers -/

theorem can_place_present_eq (g : Grid Cell) (p : Present) (off : XY) :
    can_place_present g p off = can_place_cells g (placementCells p off) := rfl

theorem place_present_eq (g : Grid Cell) (p : Present) (off : XY) :
    place_present g p off = place_cells g (placementCells p off) := rfl

/-! ## Claim C1 -/

/-- C1 (code defect): the spec says a present strictly larger than the grid in
a dimension yields ZERO candidate offsets and no error, but `xy_possibilities`
computes `grid - present + 1` on `usize`, which underflows in that case: a
panic under overflow checks (and in release builds a wrapped, astronomically
large bound whose out-of-range offsets then panic the feasibility check).
The modelled enumeration faults; a fitting present enumerates normally. -/
theorem C1_xy_possibilities_oversize_faults :
    xy_possibilities 1 1 3 1 = .error .underflowPanic ∧
    xy_possibilities 1 1 1 3 = .error .underflowPanic ∧
    xy_possibilities 2 2 2 1 = .ok [⟨0, 0⟩, ⟨0, 1⟩] := by decide

/-! ## Claim C2 -/

/-- C2 counterexample: two presents with identical `occupied_cells` but
different backing grids (a 1×1 `#` and a 1×2 `#.`) are NOT equal, because the
derived `PartialEq` of `Present` compares the grid field too. -/
theorem C2_counterexample :
    (Present.new ⟨[[Cell.Filled]]⟩).occupied_cells =
      (Present.new ⟨[[Cell.Filled, Cell.Empty]]⟩).occupied_cells ∧
    Present.new ⟨[[Cell.Filled]]⟩ ≠ Present.new ⟨[[Cell.Filled, Cell.Empty]]⟩ := by
  decide

/-- C2 (amended): hashing is over `occupied_cells` only, so equal
occupied-cell lists feed identical data to the hasher; but equality is the
derived structural equality over both fields, so under equal occupied-cell
lists two presents are equal exactly when their backing grids are equal. -/
theorem C2_hash_from_occupied_eq_needs_grid (p q : Present)
    (h : p.occupied_cells = q.occupied_cells) :
    p.hashInput = q.hashInput ∧ (p = q ↔ p.grid = q.grid) := by
  refine ⟨h, ?_, ?_⟩
  · intro e
    rw [e]
  · intro e
    cases p
    cases q
    simp_all [Present.hashInput]

/-- C2 witness: the amended statement at the concrete counterexample pair. -/
theorem C2_hash_from_occupied_eq_needs_grid_witness :
    (Present.new ⟨[[Cell.Filled]]⟩).hashInput =
      (Present.new ⟨[[Cell.Filled, Cell.Empty]]⟩).hashInput ∧
    (Present.new ⟨[[Cell.Filled]]⟩ = Present.new ⟨[[Cell.Filled, Cell.Empty]]⟩ ↔
      (Present.new ⟨[[Cell.Filled]]⟩).grid =
        (Present.new ⟨[[Cell.Filled, Cell.Empty]]⟩).grid) :=
  C2_hash_from_occupied_eq_needs_grid _ _ (by decide)

/-! ## Claim C3 -/

/-- C3 counterexample: a present block whose rows have unequal length (`##`
then `#`) parses successfully; the ragged grid reaches the solver-facing
`Present` unrejected, so the inconsistent-row-width malformation is NOT
surfaced as a parse error. -/
theorem C3_counterexample :
    parse_present_lines ["##", "#"] =
      .ok (Present.new ⟨[[Cell.Filled, Cell.Filled], [Cell.Filled]]⟩) ∧
    ¬ (⟨[[Cell.Filled, Cell.Filled], [Cell.Filled]]⟩ : Grid Cell).Rect := by
  constructor
  · rfl
  · decide

/-- C3 (amended): `Grid::from_lines` succeeds exactly when every character of
every line parses as a cell — row widths are never examined, so bad shape
characters are rejected but ragged rows are accepted and handed on. -/
theorem C3_from_lines_ignores_widths (lines : List String) :
    (∃ g, Grid.from_lines lines = .ok g) ↔
      ∀ l ∈ lines, ∀ c ∈ l.data, c = '.' ∨ c = '#' := by
  have h1 : (∃ g, Grid.from_lines lines = .ok g) ↔
      ∃ rows, exceptTraverse (fun line => exceptTraverse Cell.fromChar line.data) lines =
        .ok rows := by
    unfold Grid.from_lines
    cases hx : exceptTraverse (fun line => exceptTraverse Cell.fromChar line.data) lines <;>
      simp [Except.map]
  rw [h1, exceptTraverse_isOk]
  constructor
  · intro h l hl c hc
    exact (Cell.fromChar_isOk c).mp ((exceptTraverse_isOk _ _).mp (h l hl) c hc)
  · intro h l hl
    exact (exceptTraverse_isOk _ _).mpr fun c hc => (Cell.fromChar_isOk c).mpr (h l hl c hc)

/-- C3 witness: the amended statement at a concrete accepted and a rejected
character set is obtained by instantiation. -/
theorem C3_from_lines_ignores_widths_witness :
    (∃ g, Grid.from_lines ["##", "#"] = .ok g) ↔
      ∀ l ∈ ["##", "#"], ∀ c ∈ l.data, c = '.' ∨ c = '#' :=
  C3_from_lines_ignores_widths ["##", "#"]

/-! ## Claim C5 -/

/-- C5 (amended): for every rectangular grid that is not degenerate (a
positive number of rows forces positive width), `rotate_90` four times is the
identity, `flip_horizontal` is an involution, `rotate_180` is
`flip_horizontal` then `flip_vertical`, and `rotate_270` inverts `rotate_90`
on both sides.  (The two flip identities hold for every grid.) -/
theorem C5_transform_roundtrips {α : Type} (g : Grid α) (hr : g.Rect)
    (hdeg : g.width = 0 → g.height = 0) :
    ((((g.rotate_90.bind Grid.rotate_90).bind Grid.rotate_90).bind Grid.rotate_90) = some g) ∧
    (g.flip_horizontal.flip_horizontal = g) ∧
    (g.rotate_180 = g.flip_horizontal.flip_vertical) ∧
    (g.rotate_90.bind Grid.rotate_270 = some g) ∧
    (g.rotate_270.bind Grid.rotate_90 = some g) :=
  ⟨rot4_eq g hr hdeg, flip_horizontal_involutive g, rotate_180_eq_flips g,
    rot90_rot270 g hr hdeg, rot270_rot90 g hr hdeg⟩

/-- C5 counterexample: the grid with a single empty row has equal-length rows,
yet four `rotate_90` produce the zero-row grid, not the original — the claim
fails on degenerate grids with rows but zero width. -/
theorem C5_counterexample :
    (⟨[[]]⟩ : Grid Cell).Rect ∧
    ((((⟨[[]]⟩ : Grid Cell).rotate_90.bind Grid.rotate_90).bind Grid.rotate_90).bind
      Grid.rotate_90 ≠ some ⟨[[]]⟩) ∧
    ((⟨[[]]⟩ : Grid Cell).rotate_90.bind Grid.rotate_270 ≠ some ⟨[[]]⟩) := by
  decide

/-- C5 witness: the amended statement on a concrete 2×3 rectangular grid. -/
theorem C5_transform_roundtrips_witness :
    ((((⟨[[Cell.Filled, Cell.Empty], [Cell.Empty, Cell.Filled], [Cell.Filled, Cell.Filled]]⟩ :
        Grid Cell).rotate_90.bind Grid.rotate_90).bind Grid.rotate_90).bind Grid.rotate_90 =
      some ⟨[[Cell.Filled, Cell.Empty], [Cell.Empty, Cell.Filled], [Cell.Filled, Cell.Filled]]⟩) ∧
    ((⟨[[Cell.Filled, Cell.Empty], [Cell.Empty, Cell.Filled], [Cell.Filled, Cell.Filled]]⟩ :
      Grid Cell).flip_horizontal.flip_horizontal =
      ⟨[[Cell.Filled, Cell.Empty], [Cell.Empty, Cell.Filled], [Cell.Filled, Cell.Filled]]⟩) ∧
    ((⟨[[Cell.Filled, Cell.Empty], [Cell.Empty, Cell.Filled], [Cell.Filled, Cell.Filled]]⟩ :
      Grid Cell).rotate_180 =
      (⟨[[Cell.Filled, Cell.Empty], [Cell.Empty, Cell.Filled], [Cell.Filled, Cell.Filled]]⟩ :
        Grid Cell).flip_horizontal.flip_vertical) ∧
    ((⟨[[Cell.Filled, Cell.Empty], [Cell.Empty, Cell.Filled], [Cell.Filled, Cell.Filled]]⟩ :
      Grid Cell).rotate_90.bind Grid.rotate_270 =
      some ⟨[[Cell.Filled, Cell.Empty], [Cell.Empty, Cell.Filled], [Cell.Filled, Cell.Filled]]⟩) ∧
    ((⟨[[Cell.Filled, Cell.Empty], [Cell.Empty, Cell.Filled], [Cell.Filled, Cell.Filled]]⟩ :
      Grid Cell).rotate_270.bind Grid.rotate_90 =
      some ⟨[[Cell.Filled, Cell.Empty], [Cell.Empty, Cell.Filled], [Cell.Filled, Cell.Filled]]⟩) :=
  C5_transform_roundtrips _ (by decide) (by decide)

/-! ## Claim C6 -/

/-- C6: `Present::new` derives `occupied_cells` from the grid (the row-major
`Filled` scan `gridOccupied`), and every transform re-derives it for the
transformed grid — stated for arbitrary presents `p`, including ones whose
own list is stale, which shows the list is recomputed, not copied. -/
theorem C6_occupied_rederived (g : Grid Cell) (p q1 q2 : Present)
    (h90 : p.rotate_90 = some q1) (h270 : p.rotate_270 = some q2) :
    (Present.new g).Wf ∧ p.rotate_180.Wf ∧ p.flip_horizontal.Wf ∧
      p.flip_vertical.Wf ∧ q1.Wf ∧ q2.Wf := by
  refine ⟨rfl, rfl, rfl, rfl, ?_, ?_⟩
  · unfold Present.rotate_90 at h90
    obtain ⟨g1, _, hq⟩ := Option.map_eq_some'.mp h90
    rw [← hq]
    rfl
  · unfold Present.rotate_270 at h270
    obtain ⟨g1, _, hq⟩ := Option.map_eq_some'.mp h270
    rw [← hq]
    rfl

/-- C6 witness: a present with a deliberately stale `occupied_cells` list
(it claims no cells although its grid is a filled 1×1): all its transforms
nevertheless carry the correctly re-derived list. -/
theorem C6_occupied_rederived_witness :
    (Present.new ⟨[[Cell.Filled]]⟩).Wf ∧
    (⟨⟨[[Cell.Filled]]⟩, []⟩ : Present).rotate_180.Wf ∧
    (⟨⟨[[Cell.Filled]]⟩, []⟩ : Present).flip_horizontal.Wf ∧
    (⟨⟨[[Cell.Filled]]⟩, []⟩ : Present).flip_vertical.Wf ∧
    (Present.new ⟨[[Cell.Filled]]⟩).Wf ∧ (Present.new ⟨[[Cell.Filled]]⟩).Wf :=
  C6_occupied_rederived ⟨[[Cell.Filled]]⟩ (⟨⟨[[Cell.Filled]]⟩, []⟩ : Present)
    (Present.new ⟨[[Cell.Filled]]⟩) (Present.new ⟨[[Cell.Filled]]⟩) (by decide) (by decide)

/-! ## Claim C8 -/

/-- C8 counterexample: target grid `#` (1×1, already filled), well-formed
present `##`, offset `(0,0)`: the second translated cell `(1,0)` is out of
bounds, yet the feasibility check short-circuits on the first (Filled) cell
and returns the normal verdict `false` — no panic, no error. -/
theorem C8_counterexample :
    ((⟨[[Cell.Filled]]⟩ : Grid Cell).get ⟨1, 0⟩ = none) ∧
    (⟨1, 0⟩ ∈ placementCells (Present.new ⟨[[Cell.Filled, Cell.Filled]]⟩) ⟨0, 0⟩) ∧
    can_place_present ⟨[[Cell.Filled]]⟩ (Present.new ⟨[[Cell.Filled, Cell.Filled]]⟩) ⟨0, 0⟩ =
      .ok false := by decide

/-- C8 (amended): `place_present` errors whenever any translated cell is out
of bounds; the feasibility check panics when it reaches an out-of-bounds cell
(which happens whenever one exists and no earlier cell was already `Filled`)
and never answers `true` with an out-of-bounds cell present — but an earlier
`Filled` cell short-circuits it to a normal `false` without the abort.  Under
the precondition that the present is well-formed with an equal-row-length
grid, the target grid is rectangular, and the offset comes from
`xy_possibilities`, every translated cell is in bounds, so neither abort is
reachable. -/
theorem C8_oob_aborts_and_unreachable (g : Grid Cell) (p : Present) (off : XY) :
    ((∃ c ∈ placementCells p off, g.get c = none) → (place_present g p off).2 = false) ∧
    ((∀ c ∈ placementCells p off, g.get c ≠ some Cell.Filled) →
      (∃ c ∈ placementCells p off, g.get c = none) →
      can_place_present g p off = .error .canPlacePanic) ∧
    (can_place_present g p off = .ok true →
      ∀ c ∈ placementCells p off, (g.get c).isSome) ∧
    (p.Wf → p.grid.Rect → g.Rect →
      ∀ xs, xy_possibilities g.width g.height p.grid.width p.grid.height = .ok xs →
        off ∈ xs →
        (∀ c ∈ placementCells p off, (g.get c).isSome) ∧
        can_place_present g p off ≠ .error .canPlacePanic ∧
        (place_present g p off).2 = true) := by
  refine ⟨?_, ?_, ?_, ?_⟩
  · intro h
    rw [place_present_eq]
    exact place_cells_oob h
  · intro h1 h2
    rw [can_place_present_eq]
    exact can_place_cells_panic h1 h2
  · intro h c hc
    rw [can_place_present_eq] at h
    have := can_place_cells_ok_true.mp h c hc
    rw [this]
    rfl
  · intro hwf hrp hrg xs hok hmem
    obtain ⟨_, _, hx, hy⟩ := mem_xy_possibilities hok hmem
    have hin : ∀ c ∈ placementCells p off, (g.get c).isSome := by
      intro c hc
      obtain ⟨d, hd, rfl⟩ := List.mem_map.mp hc
      exact translated_inbounds hwf hrp hrg hx hy hd
    refine ⟨hin, ?_, ?_⟩
    · rw [can_place_present_eq]
      obtain ⟨b, hb⟩ := can_place_cells_isOk hin
      rw [hb]
      intro hfalse
      cases hfalse
    · rw [place_present_eq]
      exact (place_cells_inbounds hin).1

/-- C8 witness: a fitting well-formed present on an empty 2×2 grid at offset
`(0,0)` drawn from the enumeration — neither abort is reachable. -/
theorem C8_oob_aborts_and_unreachable_witness :
    can_place_present (Grid.new_sized 2 2 Cell.Empty)
        (Present.new ⟨[[Cell.Filled, Cell.Filled], [Cell.Filled, Cell.Filled]]⟩) ⟨0, 0⟩ ≠
      .error .canPlacePanic ∧
    (place_present (Grid.new_sized 2 2 Cell.Empty)
        (Present.new ⟨[[Cell.Filled, Cell.Filled], [Cell.Filled, Cell.Filled]]⟩) ⟨0, 0⟩).2 =
      true := by
  have h := (C8_oob_aborts_and_unreachable (Grid.new_sized 2 2 Cell.Empty)
    (Present.new ⟨[[Cell.Filled, Cell.Filled], [Cell.Filled, Cell.Filled]]⟩) ⟨0, 0⟩).2.2.2
    (by decide) (by decide) (by decide) [⟨0, 0⟩] (by decide) (by decide)
  exact ⟨h.2.1, h.2.2⟩

/-! ## Claim C10 -/

/-- C10: `place_present` is not atomic on error.  If the translated occupied
cells split as `pre ++ c :: post` with every cell of `pre` in bounds and `c`
out of bounds, the call returns the error flag only after having already
filled every cell of `pre` in the caller-provided grid; the grid is left in
that partially mutated state. -/
theorem C10_place_present_not_atomic (g : Grid Cell) (p : Present) (off : XY)
    (pre post : List XY) (c : XY)
    (hsplit : placementCells p off = pre ++ c :: post)
    (hpre : ∀ d ∈ pre, (g.get d).isSome) (hc : g.get c = none) :
    place_present g p off = (fillCells g pre, false) := by
  rw [place_present_eq, hsplit]
  exact place_cells_split hpre hc

/-- C10 witness: a present with occupied cells `(0,0)` and the out-of-bounds
`(5,5)` placed on an empty 2×1 grid fills `(0,0)` and then errors, leaving
the mutation in place. -/
theorem C10_place_present_not_atomic_witness :
    place_present (Grid.new_sized 2 1 Cell.Empty)
        (⟨⟨[[Cell.Filled, Cell.Filled]]⟩, [⟨0, 0⟩, ⟨5, 5⟩]⟩ : Present) ⟨0, 0⟩ =
      (fillCells (Grid.new_sized 2 1 Cell.Empty) [⟨0, 0⟩], false) :=
  C10_place_present_not_atomic _ _ _ [⟨0, 0⟩] [] ⟨5, 5⟩ (by decide) (by decide) (by decide)


/-! ## Solver inversion (soundness) -/

theorem try_offsets_ok_some {recur : Grid Cell → Except Fault (Option Unit)} {g : Grid Cell}
    {o : Present} {xs : List XY}
    (h : try_offsets recur g o xs = .ok (some ())) :
    ∃ xy ∈ xs, can_place_present g o xy = .ok true ∧
      ∃ g2, place_present g o xy = (g2, true) ∧ recur g2 = .ok (some ()) := by
  induction xs with
  | nil => simp [try_offsets] at h
  | cons x rest ih =>
    cases hcp : can_place_present g o x with
    | error f => simp [try_offsets, hcp] at h
    | ok b =>
      cases b
      · simp only [try_offsets, hcp] at h
        obtain ⟨xy, hxy, rest'⟩ := ih h
        exact ⟨xy, by simp [hxy], rest'⟩
      · rcases hpp : place_present g o x with ⟨g2, b2⟩
        cases b2
        · simp [try_offsets, hcp, hpp] at h
        · cases hrec : recur g2 with
          | error f => simp [try_offsets, hcp, hpp, hrec] at h
          | ok v =>
            cases v with
            | none =>
              simp only [try_offsets, hcp, hpp, hrec] at h
              obtain ⟨xy, hxy, rest'⟩ := ih h
              exact ⟨xy, by simp [hxy], rest'⟩
            | some u =>
              cases u
              exact ⟨x, by simp, hcp, g2, hpp, hrec⟩

theorem place_and_solve_ok_some {recur : Grid Cell → Except Fault (Option Unit)}
    {g : Grid Cell} {o : Present}
    (h : place_and_solve recur g o = .ok (some ())) :
    ∃ xs, xy_possibilities g.width g.height o.grid.width o.grid.height = .ok xs ∧
      try_offsets recur g o xs = .ok (some ()) := by
  unfold place_and_solve at h
  cases hxy : xy_possibilities g.width g.height o.grid.width o.grid.height with
  | error f => rw [hxy] at h; simp at h
  | ok xs =>
    rw [hxy] at h
    exact ⟨xs, rfl, h⟩

theorem try_orients_ok_some {recur : Grid Cell → Except Fault (Option Unit)}
    {g : Grid Cell} {os : List Present}
    (h : try_orients recur g os = .ok (some ())) :
    ∃ o ∈ os, place_and_solve recur g o = .ok (some ()) := by
  induction os with
  | nil => simp [try_orients] at h
  | cons o rest ih =>
    cases hps : place_and_solve recur g o with
    | error f => simp [try_orients, hps] at h
    | ok v =>
      cases v with
      | none =>
        simp only [try_orients, hps] at h
        obtain ⟨o2, ho2, h2⟩ := ih h
        exact ⟨o2, by simp [ho2], h2⟩
      | some u =>
        cases u
        exact ⟨o, by simp, hps⟩

theorem solve_with_ok_some_inv {r : List Present → List Present} {p : Present}
    {ps : List Present} {g : Grid Cell}
    (h : solve_with r (p :: ps) g = .ok (some ())) :
    ∃ os, all_orientations p = .ok os ∧
      try_orients (fun g2 => solve_with r ps g2) g (r os.dedup) = .ok (some ()) := by
  cases hall : all_orientations p with
  | error f => simp [solve_with, hall] at h
  | ok os =>
    simp only [solve_with, hall] at h
    exact ⟨os, rfl, h⟩

theorem solve_with_solvable {r : List Present → List Present} (hr : ∀ l, (r l).Perm l) :
    ∀ (ps : List Present) (g : Grid Cell),
    solve_with r ps g = .ok (some ()) → Solvable g ps := by
  intro ps
  induction ps with
  | nil => intro g _; exact Solvable.nil g
  | cons p ps ih =>
    intro g h
    obtain ⟨os, hall, hto⟩ := solve_with_ok_some_inv h
    obtain ⟨o, ho, hps⟩ := try_orients_ok_some hto
    obtain ⟨xs, hxs, htf⟩ := place_and_solve_ok_some hps
    obtain ⟨xy, hxy, hcp, g2, hpl, hrec⟩ := try_offsets_ok_some htf
    have ho2 : o ∈ os := List.mem_dedup.mp (((hr os.dedup).mem_iff).mp ho)
    exact Solvable.cons g p ps os o xs xy g2 hall ho2 hxs hxy hcp hpl (ih g2 hrec)

theorem all_orientations_inv {p : Present} {os : List Present}
    (hall : all_orientations p = .ok os) :
    ∃ g90 g270, p.grid.rotate_90 = some g90 ∧ p.grid.rotate_270 = some g270 ∧
      os = [p, Present.new g90, p.rotate_180, Present.new g270,
        p.flip_horizontal, p.flip_vertical] := by
  unfold all_orientations at hall
  cases h90 : p.rotate_90 with
  | none => rw [h90] at hall; simp at hall
  | some r90 =>
    cases h270 : p.rotate_270 with
    | none => rw [h90, h270] at hall; simp at hall
    | some r270 =>
      rw [h90, h270] at hall
      simp only [Except.ok.injEq] at hall
      obtain ⟨g90, hg90, hr90⟩ := Option.map_eq_some'.mp h90
      obtain ⟨g270, hg270, hr270⟩ := Option.map_eq_some'.mp h270
      refine ⟨g90, g270, hg90, hg270, ?_⟩
      rw [← hall, ← hr90, ← hr270]

theorem mem_orientations_nodup {p : Present} {os : List Present} {o : Present}
    (hall : all_orientations p = .ok os) (ho : o ∈ os)
    (hnd : p.occupied_cells.Nodup) : o.occupied_cells.Nodup := by
  obtain ⟨g90, g270, _, _, rfl⟩ := all_orientations_inv hall
  simp only [List.mem_cons, List.not_mem_nil, or_false] at ho
  rcases ho with rfl | rfl | rfl | rfl | rfl | rfl
  · exact hnd
  · exact gridOccupied_nodup g90
  · exact gridOccupied_nodup _
  · exact gridOccupied_nodup g270
  · exact gridOccupied_nodup _
  · exact gridOccupied_nodup _

theorem placementCells_nodup {o : Present} {xy : XY} (h : o.occupied_cells.Nodup) :
    (placementCells o xy).Nodup := by
  have hinj : Function.Injective fun c : XY => c.add xy := by
    intro a b hab
    cases a
    cases b
    simp only [XY.add, XY.mk.injEq] at hab
    simp only [XY.mk.injEq]
    omega
  exact h.map hinj

theorem solve_with_sound {r : List Present → List Present} (hr : ∀ l, (r l).Perm l) :
    ∀ (ps : List Present) (g : Grid Cell),
    (∀ p ∈ ps, p.occupied_cells.Nodup) →
    solve_with r ps g = .ok (some ()) →
    ∃ pl : List (Present × XY), pl.length = ps.length ∧
      (pl.flatMap fun pr => placementCells pr.1 pr.2).Nodup ∧
      ∀ c ∈ pl.flatMap fun pr => placementCells pr.1 pr.2, g.get c = some Cell.Empty := by
  intro ps
  induction ps with
  | nil =>
    intro g _ _
    exact ⟨[], rfl, by simp, by simp⟩
  | cons p ps ih =>
    intro g hnd hs
    obtain ⟨os, hall, hto⟩ := solve_with_ok_some_inv hs
    obtain ⟨o, ho, hps⟩ := try_orients_ok_some hto
    obtain ⟨xs, hxs, htf⟩ := place_and_solve_ok_some hps
    obtain ⟨xy, hxy, hcp, g2, hpl, hrec⟩ := try_offsets_ok_some htf
    have ho2 : o ∈ os := List.mem_dedup.mp (((hr os.dedup).mem_iff).mp ho)
    have hond : o.occupied_cells.Nodup :=
      mem_orientations_nodup hall ho2 (hnd p (by simp))
    have hcells : ∀ c ∈ placementCells o xy, g.get c = some Cell.Empty := by
      rw [can_place_present_eq] at hcp
      exact can_place_cells_ok_true.mp hcp
    have hinb : ∀ c ∈ placementCells o xy, (g.get c).isSome := by
      intro c hc
      rw [hcells c hc]
      rfl
    have hchar := place_cells_inbounds hinb
    rw [place_present_eq] at hpl
    have hg2get : ∀ e, g2.get e =
        if e ∈ placementCells o xy then some Cell.Filled else g.get e := by
      intro e
      have h2 := hchar.2 e
      rw [hpl] at h2
      exact h2
    obtain ⟨pl, hlen, hnd2, hempty⟩ := ih g2 (fun q hq => hnd q (by simp [hq])) hrec
    refine ⟨(o, xy) :: pl, by simp [hlen], ?_, ?_⟩
    · rw [List.flatMap_cons]
      refine List.Nodup.append (placementCells_nodup hond) hnd2 ?_
      intro a ha hb
      have h1 := hempty a hb
      rw [hg2get a, if_pos ha] at h1
      cases h1
    · intro c hc
      rw [List.flatMap_cons, List.mem_append] at hc
      rcases hc with hc | hc
      · exact hcells c hc
      · have h1 := hempty c hc
        rw [hg2get c] at h1
        by_cases hcin : c ∈ placementCells o xy
        · rw [if_pos hcin] at h1
          cases h1
        · rw [if_neg hcin] at h1
          exact h1

/-! ## Solver completeness on fault-free runs -/

theorem try_offsets_complete {recur : Grid Cell → Except Fault (Option Unit)}
    {g : Grid Cell} {o : Present} {xy : XY} {g2 : Grid Cell}
    (hcp : can_place_present g o xy = .ok true)
    (hpl : place_present g o xy = (g2, true))
    (hrec : (recur g2).isOk = true → recur g2 = .ok (some ())) :
    ∀ xs : List XY, xy ∈ xs → (try_offsets recur g o xs).isOk = true →
      try_offsets recur g o xs = .ok (some ()) := by
  intro xs
  induction xs with
  | nil =>
    intro hmem _
    simp at hmem
  | cons x rest ih =>
    intro hmem hne
    cases hcpx : can_place_present g o x with
    | error f => simp [try_offsets, hcpx, Except.isOk, Except.toBool] at hne
    | ok b =>
      cases b
      · have hx : x ≠ xy := by
          intro he
          rw [he] at hcpx
          have := hcp.symm.trans hcpx
          simp at this
        have hmem2 : xy ∈ rest := by
          rcases List.mem_cons.mp hmem with h | h
          · exact absurd h.symm hx
          · exact h
        simp only [try_offsets, hcpx] at hne ⊢
        exact ih hmem2 hne
      · rcases hppx : place_present g o x with ⟨g3, b3⟩
        cases b3
        · simp [try_offsets, hcpx, hppx, Except.isOk, Except.toBool] at hne
        · cases hrecx : recur g3 with
          | error f => simp [try_offsets, hcpx, hppx, hrecx, Except.isOk, Except.toBool] at hne
          | ok v =>
            cases v with
            | some u =>
              cases u
              simp [try_offsets, hcpx, hppx, hrecx]
            | none =>
              by_cases hx : x = xy
              · exfalso
                rw [hx, hpl] at hppx
                have hg : g2 = g3 := by
                  have h3 := hppx
                  rw [Prod.mk.injEq] at h3
                  exact h3.1
                rw [← hg] at hrecx
                have hok : (recur g2).isOk = true := by rw [hrecx]; rfl
                have := (hrec hok).symm.trans hrecx
                simp at this
              · have hmem2 : xy ∈ rest := by
                  rcases List.mem_cons.mp hmem with h | h
                  · exact absurd h.symm hx
                  · exact h
                simp only [try_offsets, hcpx, hppx, hrecx] at hne ⊢
                exact ih hmem2 hne

theorem place_and_solve_complete {recur : Grid Cell → Except Fault (Option Unit)}
    {g : Grid Cell} {o : Present} {xs : List XY} {xy : XY} {g2 : Grid Cell}
    (hxs : xy_possibilities g.width g.height o.grid.width o.grid.height = .ok xs)
    (hmem : xy ∈ xs)
    (hcp : can_place_present g o xy = .ok true)
    (hpl : place_present g o xy = (g2, true))
    (hrec : (recur g2).isOk = true → recur g2 = .ok (some ()))
    (hne : (place_and_solve recur g o).isOk = true) :
    place_and_solve recur g o = .ok (some ()) := by
  unfold place_and_solve at hne ⊢
  rw [hxs] at hne ⊢
  exact try_offsets_complete hcp hpl hrec xs hmem hne

theorem try_orients_complete {recur : Grid Cell → Except Fault (Option Unit)}
    {g : Grid Cell} {o : Present}
    (hosucc : (place_and_solve recur g o).isOk = true →
      place_and_solve recur g o = .ok (some ())) :
    ∀ L : List Present, o ∈ L → (try_orients recur g L).isOk = true →
      try_orients recur g L = .ok (some ()) := by
  intro L
  induction L with
  | nil =>
    intro hmem _
    simp at hmem
  | cons o1 rest ih =>
    intro hmem hne
    cases hps : place_and_solve recur g o1 with
    | error f => simp [try_orients, hps, Except.isOk, Except.toBool] at hne
    | ok v =>
      cases v with
      | some u =>
        cases u
        simp [try_orients, hps]
      | none =>
        by_cases ho1 : o1 = o
        · exfalso
          rw [ho1] at hps
          have := (hosucc (by rw [hps]; rfl)).symm.trans hps
          simp at this
        · have hmem2 : o ∈ rest := by
            rcases List.mem_cons.mp hmem with h | h
            · exact absurd h.symm ho1
            · exact h
          simp only [try_orients, hps] at hne ⊢
          exact ih hmem2 hne

theorem solve_with_complete {r : List Present → List Present} (hr : ∀ l, (r l).Perm l) :
    ∀ (ps : List Present) (g : Grid Cell), Solvable g ps →
    (solve_with r ps g).isOk = true → solve_with r ps g = .ok (some ()) := by
  intro ps
  induction ps with
  | nil =>
    intro g _ _
    rfl
  | cons p ps ih =>
    intro g hsolv hne
    cases hsolv with
    | cons _ _ _ os o xs xy g2 hall ho hxs hxy hcp hpl htail =>
      simp only [solve_with, hall] at hne ⊢
      have ho2 : o ∈ r os.dedup := ((hr os.dedup).mem_iff).mpr (List.mem_dedup.mpr ho)
      refine try_orients_complete ?_ (r os.dedup) ho2 hne
      intro hok
      refine place_and_solve_complete hxs hxy hcp hpl ?_ hok
      intro hok2
      exact ih g2 htail hok2

/-! ## Fault-free preconditions -/

theorem grid_width_of_all {α : Type} (rows : List (List α)) (n : Nat)
    (hne : rows ≠ []) (hall : ∀ row ∈ rows, row.length = n) :
    (Grid.mk rows).width = n := by
  cases rows with
  | nil => cases hne rfl
  | cons r rs =>
    unfold Grid.width
    simpa using hall r (by simp)

theorem rotate_180_char {α : Type} (g : Grid α) (hr : g.Rect) (hh : 0 < g.height) :
    g.rotate_180.Rect ∧ g.rotate_180.width = g.width ∧ g.rotate_180.height = g.height := by
  have hne : g.cells ≠ [] := by
    intro h
    rw [Grid.height, h] at hh
    simp at hh
  have hall : ∀ row ∈ g.cells.reverse.map List.reverse, row.length = g.width := by
    intro row hrow
    obtain ⟨row0, hrow0, rfl⟩ := List.mem_map.mp hrow
    rw [List.length_reverse]
    exact hr row0 (List.mem_reverse.mp hrow0)
  have hw : (Grid.mk (g.cells.reverse.map List.reverse)).width = g.width :=
    grid_width_of_all _ _ (by simpa using hne) hall
  refine ⟨?_, hw, by simp [Grid.rotate_180, Grid.height]⟩
  intro row hrow
  rw [show (Grid.rotate_180 g).width = g.width from hw]
  exact hall row hrow

theorem flip_horizontal_char {α : Type} (g : Grid α) (hr : g.Rect) (hh : 0 < g.height) :
    g.flip_horizontal.Rect ∧ g.flip_horizontal.width = g.width ∧
      g.flip_horizontal.height = g.height := by
  have hne : g.cells ≠ [] := by
    intro h
    rw [Grid.height, h] at hh
    simp at hh
  have hall : ∀ row ∈ g.cells.map List.reverse, row.length = g.width := by
    intro row hrow
    obtain ⟨row0, hrow0, rfl⟩ := List.mem_map.mp hrow
    rw [List.length_reverse]
    exact hr row0 hrow0
  have hw : (Grid.mk (g.cells.map List.reverse)).width = g.width :=
    grid_width_of_all _ _ (by simpa using hne) hall
  refine ⟨?_, hw, by simp [Grid.flip_horizontal, Grid.height]⟩
  intro row hrow
  rw [show (Grid.flip_horizontal g).width = g.width from hw]
  exact hall row hrow

theorem flip_vertical_char {α : Type} (g : Grid α) (hr : g.Rect) (hh : 0 < g.height) :
    g.flip_vertical.Rect ∧ g.flip_vertical.width = g.width ∧
      g.flip_vertical.height = g.height := by
  have hne : g.cells ≠ [] := by
    intro h
    rw [Grid.height, h] at hh
    simp at hh
  have hall : ∀ row ∈ g.cells.reverse, row.length = g.width := by
    intro row hrow
    exact hr row (List.mem_reverse.mp hrow)
  have hw : (Grid.mk g.cells.reverse).width = g.width :=
    grid_width_of_all _ _ (by simpa using hne) hall
  refine ⟨?_, hw, by simp [Grid.flip_vertical, Grid.height]⟩
  intro row hrow
  rw [show (Grid.flip_vertical g).width = g.width from hw]
  exact hall row hrow

theorem all_orientations_ok {p : Present} (hrp : p.grid.Rect)
    (hw : 0 < p.grid.width) (hh : 0 < p.grid.height) :
    ∃ os, all_orientations p = .ok os := by
  obtain ⟨g90, e90, _⟩ := rotate_90_char p.grid hrp hw hh
  obtain ⟨g270, e270, _⟩ := rotate_270_char p.grid hrp hw hh
  unfold all_orientations Present.rotate_90 Present.rotate_270
  rw [e90, e270]
  exact ⟨_, rfl⟩

theorem mem_orientations_char {p : Present} {os : List Present} {o : Present}
    (hall : all_orientations p = .ok os) (ho : o ∈ os)
    (hwf : p.Wf) (hrp : p.grid.Rect) (hw : 0 < p.grid.width) (hh : 0 < p.grid.height) :
    o.Wf ∧ o.grid.Rect ∧
      ((o.grid.width = p.grid.width ∧ o.grid.height = p.grid.height) ∨
       (o.grid.width = p.grid.height ∧ o.grid.height = p.grid.width)) := by
  obtain ⟨g90, g270, e90, e270, rfl⟩ := all_orientations_inv hall
  obtain ⟨g90b, e90b, r90, hh90, hw90, _⟩ := rotate_90_char p.grid hrp hw hh
  obtain ⟨g270b, e270b, r270, hh270, hw270, _⟩ := rotate_270_char p.grid hrp hw hh
  have hg90 : g90 = g90b := by
    have h0 := e90.symm.trans e90b
    simpa using h0
  have hg270 : g270 = g270b := by
    have h0 := e270.symm.trans e270b
    simpa using h0
  subst hg90
  subst hg270
  obtain ⟨hrectA, hwA, hhA⟩ := rotate_180_char p.grid hrp hh
  obtain ⟨hrectB, hwB, hhB⟩ := flip_horizontal_char p.grid hrp hh
  obtain ⟨hrectC, hwC, hhC⟩ := flip_vertical_char p.grid hrp hh
  simp only [List.mem_cons, List.not_mem_nil, or_false] at ho
  rcases ho with rfl | rfl | rfl | rfl | rfl | rfl
  · exact ⟨hwf, hrp, Or.inl ⟨rfl, rfl⟩⟩
  · exact ⟨rfl, r90, Or.inr ⟨hw90, hh90⟩⟩
  · exact ⟨rfl, hrectA, Or.inl ⟨hwA, hhA⟩⟩
  · exact ⟨rfl, r270, Or.inr ⟨hw270, hh270⟩⟩
  · exact ⟨rfl, hrectB, Or.inl ⟨hwB, hhB⟩⟩
  · exact ⟨rfl, hrectC, Or.inl ⟨hwC, hhC⟩⟩

theorem try_offsets_no_fault {recur : Grid Cell → Except Fault (Option Unit)}
    {g : Grid Cell} {o : Present} (hrg : g.Rect)
    (hrec : ∀ g2, g2.Rect → g2.width = g.width → g2.height = g.height →
      (recur g2).isOk = true) :
    ∀ xs : List XY, (∀ xy ∈ xs, ∀ c ∈ placementCells o xy, (g.get c).isSome) →
      (try_offsets recur g o xs).isOk = true := by
  intro xs
  induction xs with
  | nil =>
    intro _
    rfl
  | cons x rest ih =>
    intro hbound
    have hin := hbound x (by simp)
    obtain ⟨b, hcb⟩ := can_place_cells_isOk hin
    have hcb2 : can_place_present g o x = .ok b := by
      rw [can_place_present_eq]
      exact hcb
    cases b
    · simp only [try_offsets, hcb2]
      exact ih fun xy hxy => hbound xy (by simp [hxy])
    · rcases hpp : place_present g o x with ⟨g2, b2⟩
      have hppc : place_cells g (placementCells o x) = (g2, b2) := by
        rw [← place_present_eq]
        exact hpp
      have hchar := place_cells_inbounds hin
      have hb2 : b2 = true := by
        have h1 := hchar.1
        rw [hppc] at h1
        exact h1
      subst hb2
      have hshape := place_cells_shape (l := placementCells o x) (g := g)
      have hg2w : g2.width = g.width := by
        have h1 := hshape.1
        rw [hppc] at h1
        exact h1
      have hg2h : g2.height = g.height := by
        have h1 := hshape.2.1
        rw [hppc] at h1
        exact h1
      have hg2r : g2.Rect := by
        have h1 := hshape.2.2 hrg
        rw [hppc] at h1
        exact h1
      have hrecok := hrec g2 hg2r hg2w hg2h
      cases hrc : recur g2 with
      | error f =>
        rw [hrc] at hrecok
        simp [Except.isOk, Except.toBool] at hrecok
      | ok v =>
        cases v with
        | some u =>
          cases u
          simp [try_offsets, hcb2, hpp, hrc, Except.isOk, Except.toBool]
        | none =>
          simp only [try_offsets, hcb2, hpp, hrc]
          exact ih fun xy hxy => hbound xy (by simp [hxy])

theorem try_orients_no_fault {recur : Grid Cell → Except Fault (Option Unit)}
    {g : Grid Cell} (hrg : g.Rect)
    (hrec : ∀ g2, g2.Rect → g2.width = g.width → g2.height = g.height →
      (recur g2).isOk = true) :
    ∀ L : List Present,
      (∀ o ∈ L, o.Wf ∧ o.grid.Rect ∧ o.grid.width ≤ g.width ∧ o.grid.height ≤ g.height) →
      (try_orients recur g L).isOk = true := by
  intro L
  induction L with
  | nil =>
    intro _
    rfl
  | cons o rest ih =>
    intro hor
    obtain ⟨hwf, hrp, hfx, hfy⟩ := hor o (by simp)
    obtain ⟨xs, hxs⟩ := xy_possibilities_ok_iff.mpr ⟨hfx, hfy⟩
    have hbound : ∀ xy ∈ xs, ∀ c ∈ placementCells o xy, (g.get c).isSome := by
      intro xy hxy c hc
      obtain ⟨_, _, hbx, hby⟩ := mem_xy_possibilities hxs hxy
      obtain ⟨d, hd, rfl⟩ := List.mem_map.mp hc
      exact translated_inbounds hwf hrp hrg hbx hby hd
    have hpas : (place_and_solve recur g o).isOk = true := by
      unfold place_and_solve
      rw [hxs]
      exact try_offsets_no_fault hrg hrec xs hbound
    cases hps : place_and_solve recur g o with
    | error f =>
      rw [hps] at hpas
      simp [Except.isOk, Except.toBool] at hpas
    | ok v =>
      cases v with
      | some u =>
        cases u
        simp [try_orients, hps, Except.isOk, Except.toBool]
      | none =>
        simp only [try_orients, hps]
        exact ih fun o2 ho2 => hor o2 (by simp [ho2])

theorem solve_with_no_fault {r : List Present → List Present}
    (hr : ∀ l, (r l).Perm l) :
    ∀ (ps : List Present) (g : Grid Cell), g.Rect →
    (∀ p ∈ ps, p.Wf ∧ p.grid.Rect ∧ 0 < p.grid.width ∧ 0 < p.grid.height ∧
      p.grid.width ≤ g.width ∧ p.grid.height ≤ g.height ∧
      p.grid.height ≤ g.width ∧ p.grid.width ≤ g.height) →
    (solve_with r ps g).isOk = true := by
  intro ps
  induction ps with
  | nil =>
    intro g _ _
    rfl
  | cons p ps ih =>
    intro g hrg hps
    obtain ⟨hwf, hrp, hw, hh, hf1, hf2, hf3, hf4⟩ := hps p (by simp)
    obtain ⟨os, hall⟩ := all_orientations_ok hrp hw hh
    simp only [solve_with, hall]
    refine try_orients_no_fault hrg ?_ (r os.dedup) ?_
    · intro g2 h2r h2w h2h
      refine ih g2 h2r ?_
      intro q hq
      obtain ⟨q1, q2, q3, q4, q5, q6, q7, q8⟩ := hps q (by simp [hq])
      rw [h2w, h2h]
      exact ⟨q1, q2, q3, q4, q5, q6, q7, q8⟩
    · intro o ho
      have ho2 : o ∈ os := List.mem_dedup.mp (((hr os.dedup).mem_iff).mp ho)
      obtain ⟨owf, orect, hdims⟩ := mem_orientations_char hall ho2 hwf hrp hw hh
      refine ⟨owf, orect, ?_, ?_⟩ <;> rcases hdims with ⟨d1, d2⟩ | ⟨d1, d2⟩ <;> omega

/-! ## Order independence of the verdict -/

theorem verdict_order_independent {r1 r2 : List Present → List Present}
    (h1 : ∀ l, (r1 l).Perm l) (h2 : ∀ l, (r2 l).Perm l)
    (ps : List Present) (g : Grid Cell)
    (hf1 : (solve_with r1 ps g).isOk = true) (hf2 : (solve_with r2 ps g).isOk = true) :
    solve_with r1 ps g = solve_with r2 ps g := by
  by_cases hs : Solvable g ps
  · rw [solve_with_complete h1 ps g hs hf1, solve_with_complete h2 ps g hs hf2]
  · have e1 : solve_with r1 ps g = .ok none := by
      cases hv : solve_with r1 ps g with
      | error f =>
        rw [hv] at hf1
        simp [Except.isOk, Except.toBool] at hf1
      | ok v =>
        cases v with
        | none => rfl
        | some u =>
          cases u
          exact absurd (solve_with_solvable h1 ps g hv) hs
    have e2 : solve_with r2 ps g = .ok none := by
      cases hv : solve_with r2 ps g with
      | error f =>
        rw [hv] at hf2
        simp [Except.isOk, Except.toBool] at hf2
      | ok v =>
        cases v with
        | none => rfl
        | some u =>
          cases u
          exact absurd (solve_with_solvable h2 ps g hv) hs
    rw [e1, e2]

/-! ## Claim C4 -/

theorem flatMap_placement_length (pl : List (Present × XY)) :
    (pl.flatMap fun pr => placementCells pr.1 pr.2).length =
      (pl.map fun pr => pr.1.occupied_cells.length).sum := by
  induction pl with
  | nil => rfl
  | cons pr rest ih =>
    simp only [List.flatMap_cons, List.length_append, List.map_cons, List.sum_cons, ih]
    simp [placementCells]

/-- C4: in every success reported by the solver there is a list of placed
(oriented present, offset) pairs, one per queue entry, whose translated
occupied cells are pairwise distinct, each in bounds and `Empty` in the
starting grid (hence empty at its placement time, as earlier placements only
fill cells), and the union of all placed cells has exactly as many elements
as the sum of the presents' occupied-cell counts.  The hypothesis asks only
that the input presents have duplicate-free occupied lists, which every
`Present::new`-built present satisfies. -/
theorem C4_success_no_overlap {r : List Present → List Present}
    (hr : ∀ l, (r l).Perm l) (ps : List Present) (g : Grid Cell)
    (hnd : ∀ p ∈ ps, p.occupied_cells.Nodup)
    (hs : solve_with r ps g = .ok (some ())) :
    ∃ pl : List (Present × XY), pl.length = ps.length ∧
      (pl.flatMap fun pr => placementCells pr.1 pr.2).Nodup ∧
      (∀ c ∈ pl.flatMap fun pr => placementCells pr.1 pr.2, g.get c = some Cell.Empty) ∧
      (pl.flatMap fun pr => placementCells pr.1 pr.2).toFinset.card =
        (pl.map fun pr => pr.1.occupied_cells.length).sum := by
  obtain ⟨pl, h1, h2, h3⟩ := solve_with_sound hr ps g hnd hs
  refine ⟨pl, h1, h2, h3, ?_⟩
  rw [List.toFinset_card_of_nodup h2]
  exact flatMap_placement_length pl

/-- C4 witness: the single 1×1 present on a 1×1 grid under the identity
orientation order. -/
theorem C4_success_no_overlap_witness :
    ∃ pl : List (Present × XY),
      pl.length = ([Present.new ⟨[[Cell.Filled]]⟩] : List Present).length ∧
      (pl.flatMap fun pr => placementCells pr.1 pr.2).Nodup ∧
      (∀ c ∈ pl.flatMap fun pr => placementCells pr.1 pr.2,
        (Grid.new_sized 1 1 Cell.Empty).get c = some Cell.Empty) ∧
      (pl.flatMap fun pr => placementCells pr.1 pr.2).toFinset.card =
        (pl.map fun pr => pr.1.occupied_cells.length).sum :=
  C4_success_no_overlap (fun l => List.Perm.refl l) [Present.new ⟨[[Cell.Filled]]⟩]
    (Grid.new_sized 1 1 Cell.Empty) (by decide) (by decide)

/-! ## Claim C7 -/

/-- C7 counterexample: the present `#..#` in a 4×1 region.  Its deduplicated
orientation set is a 4×1 row and a 1×4 column.  If the `HashSet` iteration
happens to yield the column first, the run panics on the `usize` underflow in
`xy_possibilities` (1×4 does not fit a 4×1 grid); if it yields the row first
the search succeeds before ever enumerating offsets for the column.  Two
legitimate iteration orders of the same orientation set thus produce
different outcomes, so the verdict is not independent of the `HashSet`
order. -/
theorem C7_counterexample :
    solve_with (fun l => l)
      [Present.new ⟨[[Cell.Filled, Cell.Empty, Cell.Empty, Cell.Filled]]⟩]
      (Grid.new_sized 4 1 Cell.Empty) = .error .underflowPanic ∧
    solve_with (fun l => l.reverse)
      [Present.new ⟨[[Cell.Filled, Cell.Empty, Cell.Empty, Cell.Filled]]⟩]
      (Grid.new_sized 4 1 Cell.Empty) = .ok (some ()) := by
  decide

/-- C7 (amended): whenever two runs over the same deduplicated orientation
set (any two permutations of it) BOTH finish without a fault, they return
the same success/failure verdict; the claim as stated fails only through
runs that fault, as in the counterexample. -/
theorem C7_verdict_order_independent {r1 r2 : List Present → List Present}
    (h1 : ∀ l, (r1 l).Perm l) (h2 : ∀ l, (r2 l).Perm l)
    (ps : List Present) (g : Grid Cell)
    (hf1 : (solve_with r1 ps g).isOk = true)
    (hf2 : (solve_with r2 ps g).isOk = true) :
    solve_with r1 ps g = solve_with r2 ps g :=
  verdict_order_independent h1 h2 ps g hf1 hf2

/-- C7 witness: identity and reversed orientation orders agree on a solvable
1×1 instance where neither run faults. -/
theorem C7_verdict_order_independent_witness :
    solve_with (fun l => l) [Present.new ⟨[[Cell.Filled]]⟩]
        (Grid.new_sized 1 1 Cell.Empty) =
      solve_with (fun l => l.reverse) [Present.new ⟨[[Cell.Filled]]⟩]
        (Grid.new_sized 1 1 Cell.Empty) :=
  C7_verdict_order_independent (fun l => List.Perm.refl l)
    (fun l => List.reverse_perm l) [Present.new ⟨[[Cell.Filled]]⟩]
    (Grid.new_sized 1 1 Cell.Empty) (by decide) (by decide)

/-! ## Claim C9 -/

/-- C9: the three concrete verdicts of the spec, proved for EVERY legitimate
iteration order of the deduplicated orientation set: a 4×4 region with two
2×2 full squares succeeds, a 3×3 region with one 3×2 full block succeeds,
and a 2×2 region with two 2×2 full squares fails (a normal `none`, not an
error).  All orientations fit these grids, so no run faults, and the verdict
is order-independent. -/
theorem C9_concrete_verdicts (r : List Present → List Present)
    (hr : ∀ l, (r l).Perm l) :
    solve_with r
      [Present.new ⟨[[Cell.Filled, Cell.Filled], [Cell.Filled, Cell.Filled]]⟩,
        Present.new ⟨[[Cell.Filled, Cell.Filled], [Cell.Filled, Cell.Filled]]⟩]
      (Grid.new_sized 4 4 Cell.Empty) = .ok (some ()) ∧
    solve_with r
      [Present.new ⟨[[Cell.Filled, Cell.Filled, Cell.Filled],
        [Cell.Filled, Cell.Filled, Cell.Filled]]⟩]
      (Grid.new_sized 3 3 Cell.Empty) = .ok (some ()) ∧
    solve_with r
      [Present.new ⟨[[Cell.Filled, Cell.Filled], [Cell.Filled, Cell.Filled]]⟩,
        Present.new ⟨[[Cell.Filled, Cell.Filled], [Cell.Filled, Cell.Filled]]⟩]
      (Grid.new_sized 2 2 Cell.Empty) = .ok none := by
  refine ⟨?_, ?_, ?_⟩
  · rw [verdict_order_independent hr (fun l => List.Perm.refl l) _ _
      (solve_with_no_fault hr _ _ (by decide) (by decide))
      (solve_with_no_fault (fun l => List.Perm.refl l) _ _ (by decide) (by decide))]
    decide
  · rw [verdict_order_independent hr (fun l => List.Perm.refl l) _ _
      (solve_with_no_fault hr _ _ (by decide) (by decide))
      (solve_with_no_fault (fun l => List.Perm.refl l) _ _ (by decide) (by decide))]
    decide
  · rw [verdict_order_independent hr (fun l => List.Perm.refl l) _ _
      (solve_with_no_fault hr _ _ (by decide) (by decide))
      (solve_with_no_fault (fun l => List.Perm.refl l) _ _ (by decide) (by decide))]
    decide

/-- C9 witness: the three verdicts under the identity orientation order. -/
theorem C9_concrete_verdicts_witness :
    solve_with (fun l => l)
      [Present.new ⟨[[Cell.Filled, Cell.Filled], [Cell.Filled, Cell.Filled]]⟩,
        Present.new ⟨[[Cell.Filled, Cell.Filled], [Cell.Filled, Cell.Filled]]⟩]
      (Grid.new_sized 4 4 Cell.Empty) = .ok (some ()) ∧
    solve_with (fun l => l)
      [Present.new ⟨[[Cell.Filled, Cell.Filled, Cell.Filled],
        [Cell.Filled, Cell.Filled, Cell.Filled]]⟩]
      (Grid.new_sized 3 3 Cell.Empty) = .ok (some ()) ∧
    solve_with (fun l => l)
      [Present.new ⟨[[Cell.Filled, Cell.Filled], [Cell.Filled, Cell.Filled]]⟩,
        Present.new ⟨[[Cell.Filled, Cell.Filled], [Cell.Filled, Cell.Filled]]⟩]
      (Grid.new_sized 2 2 Cell.Empty) = .ok none :=
  C9_concrete_verdicts (fun l => l) (fun l => List.Perm.refl l)

end Day12
